import Mathlib

/-!
Verification development for the `metagent` orchestrator.

The Rust sources are shallowly embedded: Rust `String`/`&str` values are
modelled as lists of characters (`Chars`), machine integers as `Nat`/`Int`
with explicit wrapping where the source casts, `Result`/`Option` as
`Except`/`Option`, and filesystem state is passed explicitly.  Each
definition mirrors one function of the source tree and keeps its name.
-/

/-- Characters of a Rust string (Rust strings are UTF-8; character order
equals byte order, so lexicographic comparison of characters models
`str::cmp`). -/
abbrev Chars := List Char

/-- The characters of a Lean string literal, used to write `Chars` values. -/
def str (s : String) : Chars := s.data

/-- The Unicode `White_Space` property, as used by Rust `char::is_whitespace`. -/
def rust_is_whitespace (c : Char) : Bool :=
  decide (c.toNat = 0x09) || decide (c.toNat = 0x0A) || decide (c.toNat = 0x0B) ||
  decide (c.toNat = 0x0C) || decide (c.toNat = 0x0D) || decide (c.toNat = 0x20) ||
  decide (c.toNat = 0x85) || decide (c.toNat = 0xA0) || decide (c.toNat = 0x1680) ||
  (decide (0x2000 ≤ c.toNat) && decide (c.toNat ≤ 0x200A)) ||
  decide (c.toNat = 0x2028) || decide (c.toNat = 0x2029) ||
  decide (c.toNat = 0x202F) || decide (c.toNat = 0x205F) || decide (c.toNat = 0x3000)

/-- Drop leading whitespace, as `str::trim_start`. -/
def trim_left (l : Chars) : Chars := l.dropWhile rust_is_whitespace

/-- Drop trailing whitespace, as `str::trim_end`. -/
def trim_right (l : Chars) : Chars := (l.reverse.dropWhile rust_is_whitespace).reverse

/-- Rust `str::trim`. -/
def rust_trim (l : Chars) : Chars := trim_right (trim_left l)

/-- Lexicographic `≤` on strings by code point, modelling `str::cmp` /
`String::cmp` (UTF-8 byte order coincides with code-point order). -/
def chars_le : Chars → Chars → Bool
  | [], _ => true
  | _ :: _, [] => false
  | a :: xs, b :: ys =>
    if a.toNat < b.toNat then true
    else if b.toNat < a.toNat then false
    else chars_le xs ys

/-- Rust `str::split_once(sep)`: split at the first occurrence of `sep`. -/
def split_once (sep : Char) : Chars → Option (Chars × Chars)
  | [] => none
  | c :: rest =>
    if c = sep then some ([], rest)
    else
      match split_once sep rest with
      | some (k, v) => some (c :: k, v)
      | none => none

/-- Split a string at every newline character, keeping all fields
(including empty ones); always returns at least one field. -/
def split_newlines : Chars → List Chars
  | [] => [[]]
  | c :: rest =>
    if c = '\n' then [] :: split_newlines rest
    else
      match split_newlines rest with
      | [] => [[c]]
      | l :: ls => (c :: l) :: ls

/-- Remove one trailing carriage return, as Rust's `lines` does for a line
terminated by `\r\n`. -/
def strip_cr (l : Chars) : Chars :=
  match l.getLast? with
  | some c => if c = '\r' then l.dropLast else l
  | none => l

/-- Rust `str::lines`: split at `\n`, strip a `\r` preceding each `\n`,
and do not yield a final empty line. -/
def rust_lines (l : Chars) : List Chars :=
  if l = [] then []
  else
    let fields := split_newlines l
    let lastF := fields.getLast?.getD []
    let init := fields.dropLast.map strip_cr
    if lastF = [] then init else init ++ [lastF]

/-- Join lines with `\n`, as `Vec::join("\n")`. -/
def join_nl : List Chars → Chars
  | [] => []
  | [l] => l
  | l :: rest => l ++ '\n' :: join_nl rest

/-- ASCII lowercasing, modelling `str::to_lowercase` on the ASCII keyword
values this code compares against. -/
def to_lower (l : Chars) : Chars := l.map Char.toLower

/-- Whether the string contains `..`, as `str::contains("..")`. -/
def contains_dotdot : Chars → Bool
  | '.' :: '.' :: _ => true
  | _ :: rest => contains_dotdot rest
  | [] => false

/-- The UTF-8 byte length of a string, as Rust `str::len`. -/
def utf8_len (l : Chars) : Nat := (l.map Char.utf8Size).sum

/-- A character allowed in a task name by `validate_task_name`
(`is_ascii_lowercase || is_ascii_digit || '-'`). -/
def is_valid_task_char (c : Char) : Bool := c.isLower || c.isDigit || c = '-'

/-- `validate_task_name` from `src/util.rs`. -/
def validate_task_name (name : Chars) : Except Chars Unit :=
  if name = [] then .error (str "Task name required")
  else if 100 < utf8_len name then .error (str "Task name too long (max 100 chars)")
  else if contains_dotdot name || name.head? = some '.' then .error (str "Invalid task name")
  else if !(name.all is_valid_task_char) then .error (str "Invalid task name")
  else .ok ()

/-- Decimal digits of `n` computed with structural fuel; `digits_core (n+1) n`
renders `n` the way Rust's `Display for u64` does (no leading zeros, `0`
for zero). -/
def digits_core : Nat → Nat → Chars
  | 0, _ => []
  | fuel + 1, n =>
    if n < 10 then [Nat.digitChar n]
    else digits_core fuel (n / 10) ++ [Nat.digitChar (n % 10)]

/-- Decimal rendering of a natural number, as `format!("{}", n)`. -/
def nat_chars (n : Nat) : Chars := digits_core (n + 1) n

/-- `new_session_id` from `src/state.rs`: `format!("{}-{}", epoch, pid)`
where `epoch` is the wall-clock second and `pid` the calling process id.
The two clock/process reads are the function's only inputs, made explicit
here. -/
def new_session_id (epoch_secs : Nat) (pid : Nat) : Chars :=
  nat_chars epoch_secs ++ '-' :: nat_chars pid

/-- Decimal value of a digit string, inverse of `digits_core`. -/
def digits_val (l : Chars) : Nat := l.foldl (fun a c => a * 10 + (c.toNat - 48)) 0

/-- Whether an `Except` is `ok`, as `Result::is_ok`. -/
def is_ok {ε α : Type} : Except ε α → Bool
  | .ok _ => true
  | .error _ => false

lemma digits_val_append_digit (l : Chars) (c : Char) :
    digits_val (l ++ [c]) = digits_val l * 10 + (c.toNat - 48) := by
  simp [digits_val, List.foldl_append]

lemma digitChar_toNat_sub (n : Nat) (h : n < 10) : (Nat.digitChar n).toNat - 48 = n := by
  interval_cases n <;> decide

lemma digitChar_ne_dash (n : Nat) (h : n < 10) : Nat.digitChar n ≠ '-' := by
  interval_cases n <;> decide

lemma digits_core_val : ∀ fuel n, n < 10 ^ fuel → digits_val (digits_core fuel n) = n := by
  intro fuel
  induction fuel with
  | zero =>
    intro n h
    simp only [pow_zero, Nat.lt_one_iff] at h
    simp [digits_core, digits_val, h]
  | succ fuel ih =>
    intro n h
    by_cases h10 : n < 10
    · simp [digits_core, h10, digits_val, digitChar_toNat_sub n h10]
    · have hdiv : n / 10 < 10 ^ fuel := by
        rw [Nat.div_lt_iff_lt_mul (by norm_num : 0 < 10)]
        calc n < 10 ^ (fuel + 1) := h
        _ = 10 ^ fuel * 10 := by ring
      simp only [digits_core, h10, if_false]
      rw [digits_val_append_digit, ih (n / 10) hdiv,
        digitChar_toNat_sub (n % 10) (Nat.mod_lt n (by norm_num))]
      omega

lemma nat_chars_val (n : Nat) : digits_val (nat_chars n) = n := by
  have h1 : n < 10 ^ n := Nat.lt_pow_self (by norm_num) n
  have h2 : (10 : Nat) ^ n ≤ 10 ^ (n + 1) := Nat.pow_le_pow_right (by norm_num) (Nat.le_succ n)
  exact digits_core_val (n + 1) n (lt_of_lt_of_le h1 h2)

lemma nat_chars_inj {m n : Nat} (h : nat_chars m = nat_chars n) : m = n := by
  have := congrArg digits_val h
  rwa [nat_chars_val, nat_chars_val] at this

lemma digits_core_no_dash : ∀ fuel n c, c ∈ digits_core fuel n → c ≠ '-' := by
  intro fuel
  induction fuel with
  | zero => intro n c hc; simp [digits_core] at hc
  | succ fuel ih =>
    intro n c hc
    by_cases h10 : n < 10
    · simp [digits_core, h10] at hc
      exact hc ▸ digitChar_ne_dash n h10
    · simp only [digits_core, h10, if_false, List.mem_append, List.mem_singleton] at hc
      rcases hc with hc | hc
      · exact ih (n / 10) c hc
      · exact hc ▸ digitChar_ne_dash (n % 10) (Nat.mod_lt n (by norm_num))

lemma nat_chars_no_dash (n : Nat) (c : Char) (hc : c ∈ nat_chars n) : c ≠ '-' :=
  digits_core_no_dash (n + 1) n c hc

lemma append_dash_inj : ∀ a c b d : Chars, ('-' ∉ a) → ('-' ∉ c) →
    a ++ '-' :: b = c ++ '-' :: d → a = c ∧ b = d := by
  intro a
  induction a with
  | nil =>
    intro c b d _ hc h
    cases c with
    | nil => simpa using h
    | cons y ys =>
      simp only [List.nil_append, List.cons_append, List.cons.injEq] at h
      cases h.1
      exact absurd (List.mem_cons_self _ _) hc
  | cons x xs ih =>
    intro c b d ha hc h
    cases c with
    | nil =>
      simp only [List.cons_append, List.nil_append, List.cons.injEq] at h
      cases h.1
      exact absurd (List.mem_cons_self _ _) ha
    | cons y ys =>
      simp only [List.cons_append, List.cons.injEq] at h
      cases h.1
      have := ih ys b d (fun hm => ha (List.mem_cons_of_mem _ hm))
        (fun hm => hc (List.mem_cons_of_mem _ hm)) h.2
      exact ⟨by rw [this.1], this.2⟩

/-- C8 (counterexample): the claim says two invocations of `new_session_id`
by the same process within the same wall-clock second yield different ids.
But the id is a pure function of the wall-clock second and the process id
(`format!("{}-{}", epoch, pid)` reads nothing else), so two such
invocations — second 1700000000, pid 4242 — produce the very same id,
`"1700000000-4242"` both times. -/
theorem new_session_id_same_second_collision :
    new_session_id 1700000000 4242 = str "1700000000-4242" ∧
    ¬ (new_session_id 1700000000 4242 ≠ new_session_id 1700000000 4242) :=
  ⟨by decide, fun h => h rfl⟩

/-- C8 (amended): `new_session_id` is determined by the wall-clock second
and the process id alone; two invocations yield equal ids exactly when both
the second and the pid coincide.  Thus ids are unique across differing
(second, pid) pairs, but invocations by the same process within the same
second collide. -/
theorem new_session_id_eq_iff : ∀ e₁ p₁ e₂ p₂ : Nat,
    new_session_id e₁ p₁ = new_session_id e₂ p₂ ↔ (e₁ = e₂ ∧ p₁ = p₂) := by
  intro e₁ p₁ e₂ p₂
  constructor
  · intro h
    unfold new_session_id at h
    have := append_dash_inj (nat_chars e₁) (nat_chars e₂) (nat_chars p₁) (nat_chars p₂)
      (fun hm => nat_chars_no_dash e₁ '-' hm rfl)
      (fun hm => nat_chars_no_dash e₂ '-' hm rfl) h
    exact ⟨nat_chars_inj this.1, nat_chars_inj this.2⟩
  · rintro ⟨rfl, rfl⟩; rfl

/-- C9 (counterexample): the empty string is built from the allowed
characters, is at most 100 bytes, has no leading dot and no `..`, so the
claim says `validate_task_name` accepts it; the code rejects it with
"Task name required". -/
theorem validate_task_name_empty_rejected :
    ([] : Chars).all is_valid_task_char = true ∧ utf8_len ([] : Chars) ≤ 100 ∧
    ([] : Chars).head? ≠ some '.' ∧ contains_dotdot [] = false ∧
    is_ok (validate_task_name []) = false := by
  refine ⟨by decide, by decide, by decide, by decide, by decide⟩

/-- C9 (amended): `validate_task_name` accepts exactly the nonempty strings
of lowercase ASCII letters, ASCII digits and hyphens that are at most 100
bytes long, do not start with a dot and do not contain `..`; every other
string is rejected. -/
theorem validate_task_name_ok_iff : ∀ name : Chars,
    is_ok (validate_task_name name) = true ↔
      (name ≠ [] ∧ utf8_len name ≤ 100 ∧ name.head? ≠ some '.' ∧
       contains_dotdot name = false ∧ name.all is_valid_task_char = true) := by
  intro name
  unfold validate_task_name
  split_ifs with h1 h2 h3 h4
  · simp [is_ok, h1]
  · constructor
    · intro h; simp [is_ok] at h
    · rintro ⟨-, hle, -, -, -⟩
      exact absurd h2 (by omega)
  · constructor
    · intro h; simp [is_ok] at h
    · rintro ⟨-, -, hdot, hdd, -⟩
      rcases Bool.or_eq_true_iff.mp h3 with hc | hc
      · exact absurd hc (by simp [hdd])
      · exact absurd (of_decide_eq_true hc) hdot
  · constructor
    · intro h; simp [is_ok] at h
    · rintro ⟨-, -, -, -, hall⟩
      simp [hall] at h4
  · constructor
    · intro _
      have h3' := h3
      simp only [Bool.or_eq_true, decide_eq_true_eq, not_or] at h3'
      refine ⟨h1, by omega, h3'.2, ?_, ?_⟩
      · cases hdd : contains_dotdot name
        · rfl
        · exact absurd hdd h3'.1
      · cases hall : name.all is_valid_task_char
        · simp [hall] at h4
        · rfl
    · intro _; rfl

/-- `TaskStatus` from `src/state.rs`. -/
inductive TaskStatus
  | pending
  | running
  | incomplete
  | failed
  | completed
  | issues
  deriving DecidableEq, Repr

/-- `TaskState` from `src/state.rs`.  Modelled from the spec: the `held`
flag and the optional integer `queue_rank` are declared in a revision of
`state.rs` not present under the sources (only their uses in
`src/commands.rs` are); their types follow the spec's Task field list
("held flag", "queue rank (optional integer)") and those uses
(`bool`; `Option<i64>`). -/
structure TaskState where
  task : Chars
  agent : Chars
  stage : Chars
  status : TaskStatus
  held : Bool
  queue_rank : Option Int
  added_at : Chars
  updated_at : Chars
  last_session : Option Chars
  last_error : Option Chars
  deriving DecidableEq, Repr

/-- `SessionStatus` from `src/state.rs`. -/
inductive SessionStatus
  | running
  | finished
  | failed
  deriving DecidableEq, Repr

/-- `SessionState` from `src/state.rs`. -/
structure SessionState where
  session_id : Chars
  task : Option Chars
  agent : Chars
  stage : Chars
  status : SessionStatus
  started_at : Chars
  finished_at : Option Chars
  next_stage : Option Chars
  pid : Nat
  host : Chars
  repo_root : Chars
  deriving DecidableEq, Repr

/-- `ClaimState` from `src/state.rs`.  The stored `started_at` RFC3339
string is represented by its parse result (`chrono::DateTime::parse_from_rfc3339`
succeeding with a timestamp in seconds, or failing), which is all
`is_claim_stale` reads of it. -/
structure ClaimState where
  task : Chars
  agent : Chars
  pid : Nat
  host : Chars
  started_at_parsed : Option Int
  ttl_seconds : Nat
  deriving DecidableEq, Repr

/-- Reinterpretation of an `i64` as a `u64`, as Rust's `as u64` cast
(two's complement: reduction modulo `2^64`). -/
def u64_cast (e : Int) : Nat := (e % (2 ^ 64 : Int)).toNat

/-- `is_claim_stale` from `src/state.rs`.  `now` is the current wall-clock
second (`Utc::now()`), `alive` the liveness oracle (`kill(pid, 0) == 0`),
`host` the caller's host.  The elapsed seconds are computed as
`(now - started_at) as u64` and compared strictly against `ttl_seconds`. -/
def is_claim_stale (claim : ClaimState) (now : Int) (alive : Nat → Bool) (host : Chars) : Bool :=
  if (match claim.started_at_parsed with
      | some s => decide (claim.ttl_seconds < u64_cast (now - s))
      | none => false) then true
  else if claim.host = host then !(alive claim.pid) else false

/-- The state of the per-task claim file: absent, present but unreadable or
unparseable (`read_claim` fails), or holding a parsed claim. -/
inductive ClaimSlot
  | empty
  | unreadable
  | stored (c : ClaimState)
  deriving DecidableEq, Repr

/-- `claim_task` from `src/state.rs`, sequentially (no interleaved writer:
`create_new` succeeds exactly on an absent file, and the delete-retry after
a stale claim succeeds).  Returns the written claim (the guard's content)
and the resulting claim-file state.  On first creation the claim's agent is
the agent-root directory name; on a stale takeover it is the prior claim's
agent, as in the source. -/
def claim_task (slot : ClaimSlot) (agent_name task : Chars) (ttl_seconds : Nat)
    (host : Chars) (now : Int) (self_pid : Nat) (alive : Nat → Bool) :
    Option ClaimState × ClaimSlot :=
  match slot with
  | .empty =>
    let c : ClaimState :=
      ⟨task, agent_name, self_pid, host, some now, ttl_seconds⟩
    (some c, .stored c)
  | .unreadable => (none, slot)
  | .stored existing =>
    if is_claim_stale existing now alive host then
      let c : ClaimState :=
        ⟨task, existing.agent, self_pid, host, some now, ttl_seconds⟩
      (some c, .stored c)
    else (none, slot)

/-- The spec's staleness predicate, following its words: elapsed time since
`started_at` at least `ttl_seconds`, or same host with the owning process
no longer alive. -/
def claim_stale_spec (c : ClaimState) (now : Int) (alive : Nat → Bool) (host : Chars) : Prop :=
  (∃ s, c.started_at_parsed = some s ∧ (c.ttl_seconds : Int) ≤ now - s) ∨
  (c.host = host ∧ alive c.pid = false)

lemma is_claim_stale_iff (c : ClaimState) (now : Int) (alive : Nat → Bool) (host : Chars) :
    is_claim_stale c now alive host = true ↔
      ((∃ s, c.started_at_parsed = some s ∧ c.ttl_seconds < u64_cast (now - s)) ∨
       (c.host = host ∧ alive c.pid = false)) := by
  unfold is_claim_stale
  cases hs : c.started_at_parsed with
  | none =>
    simp only [hs, if_false]
    by_cases hh : c.host = host <;> simp [hh]
  | some s =>
    by_cases httl : c.ttl_seconds < u64_cast (now - s)
    · simp only [hs, httl, decide_eq_true_eq]
      simp only [if_true, true_iff]
      exact Or.inl ⟨s, rfl, httl⟩
    · simp only [hs, decide_eq_true_eq]
      rw [if_neg httl]
      by_cases hh : c.host = host <;> simp [hh, hs, httl]

/-- A concrete claim sitting exactly at its TTL boundary: started at second
0 with a 3600-second TTL, owned by a live process on another host. -/
def boundary_claim : ClaimState :=
  ⟨str "t1", str "code", 77, str "host-b", some 0, 3600⟩

/-- C2 (counterexample): at `now = 3600` the elapsed time since
`boundary_claim.started_at` is exactly `ttl_seconds`, so the claim's
"at least ttl_seconds" staleness (and "a claim whose TTL has elapsed is
always reclaimable") says the claim is reclaimable; but `claim_task`
(whose staleness test is strict, `elapsed > ttl`) acquires no lease and
leaves the claim file untouched. -/
theorem claim_task_ttl_boundary_not_reclaimed :
    claim_stale_spec boundary_claim 3600 (fun _ => true) (str "host-a") ∧
    claim_task (.stored boundary_claim) (str "code") (str "t1") 3600 (str "host-a")
        3600 99 (fun _ => true) =
      (none, .stored boundary_claim) := by
  constructor
  · exact Or.inl ⟨0, rfl, by norm_num [boundary_claim]⟩
  · rfl

/-- C2 (amended): `claim_task` acquires a lease when no claim file exists;
when a readable claim exists it acquires (deleting and re-creating) exactly
when the claim is stale, where staleness is: the elapsed seconds since
`started_at`, reinterpreted as a `u64`, STRICTLY exceed `ttl_seconds` (for
a parseable `started_at`), or the claim's host equals the caller's and its
process is no longer alive.  A live claim whose elapsed time is at most its
TTL (on another host, or with its owner alive) is never taken over, and an
unreadable claim file is never taken over. -/
theorem claim_task_spec : ∀ (slot : ClaimSlot) (agent_name task : Chars) (ttl : Nat)
    (host : Chars) (now : Int) (self_pid : Nat) (alive : Nat → Bool),
    (slot = .empty →
      claim_task slot agent_name task ttl host now self_pid alive =
        (some ⟨task, agent_name, self_pid, host, some now, ttl⟩,
         .stored ⟨task, agent_name, self_pid, host, some now, ttl⟩)) ∧
    (slot = .unreadable →
      claim_task slot agent_name task ttl host now self_pid alive = (none, slot)) ∧
    (∀ c, slot = .stored c →
      (((∃ s, c.started_at_parsed = some s ∧ c.ttl_seconds < u64_cast (now - s)) ∨
        (c.host = host ∧ alive c.pid = false)) →
        claim_task slot agent_name task ttl host now self_pid alive =
          (some ⟨task, c.agent, self_pid, host, some now, ttl⟩,
           .stored ⟨task, c.agent, self_pid, host, some now, ttl⟩)) ∧
      (¬ ((∃ s, c.started_at_parsed = some s ∧ c.ttl_seconds < u64_cast (now - s)) ∨
          (c.host = host ∧ alive c.pid = false)) →
        claim_task slot agent_name task ttl host now self_pid alive = (none, .stored c))) := by
  intro slot agent_name task ttl host now self_pid alive
  refine ⟨?_, ?_, ?_⟩
  · rintro rfl; rfl
  · rintro rfl; rfl
  · rintro c rfl
    constructor
    · intro hstale
      have := (is_claim_stale_iff c now alive host).mpr hstale
      simp [claim_task, this]
    · intro hnot
      have : is_claim_stale c now alive host = false := by
        cases h : is_claim_stale c now alive host
        · rfl
        · exact absurd ((is_claim_stale_iff c now alive host).mp h) hnot
      simp [claim_task, this]

/-- The persisted content of a record file: absent, unparseable, or a valid
record — all `load_task`/`load_session` distinguish. -/
inductive RecordFile (α : Type)
  | missing
  | corrupt
  | valid (a : α)
  deriving DecidableEq, Repr

/-- One record file together with its sibling lock. -/
structure FsState (α : Type) where
  file : RecordFile α
  lock_held : Bool
  deriving DecidableEq, Repr

/-- `with_lock` from `src/state.rs`: acquire the exclusive sibling lock
(`lock_ok` models whether open/lock succeeds), run `f`, and release the
lock unconditionally (`lock_file.unlock().ok()`) before returning `f`'s
result, error or not. -/
def with_lock {α β : Type} (lock_ok : Bool) (st : FsState α)
    (f : FsState α → Except Chars β × FsState α) : Except Chars β × FsState α :=
  if lock_ok then
    let r := f { st with lock_held := true }
    (r.1, { r.2 with lock_held := false })
  else (.error (str "Failed to lock"), st)

/-- `load_task` from `src/state.rs`: read + parse, propagating failure. -/
def load_task (file : RecordFile TaskState) : Except Chars TaskState :=
  match file with
  | .missing => .error (str "Failed to read task state")
  | .corrupt => .error (str "Failed to parse task state")
  | .valid t => .ok t

/-- `load_session` from `src/state.rs`. -/
def load_session (file : RecordFile SessionState) : Except Chars SessionState :=
  match file with
  | .missing => .error (str "Failed to read session")
  | .corrupt => .error (str "Failed to parse session")
  | .valid s => .ok s

/-- `write_json_atomic` from `src/state.rs`: write a temp file and rename
over the record (atomic replace; on failure, `write_ok = false`, the
record keeps its prior content). -/
def write_json_atomic {α : Type} (write_ok : Bool) (st : FsState α) (v : α) :
    Except Chars Unit × FsState α :=
  if write_ok then (.ok (), { st with file := .valid v })
  else (.error (str "Failed to write"), st)

/-- `update_task` from `src/state.rs`: under the sibling lock, load the
record, apply the mutator, and write the result atomically; any failure
propagates.  The mutator (`FnOnce(&mut TaskState) -> Result<()>`) is
modelled as returning the mutated record or an error. -/
def update_task (lock_ok write_ok : Bool) (st : FsState TaskState)
    (update : TaskState → Except Chars TaskState) : Except Chars Unit × FsState TaskState :=
  with_lock lock_ok st (fun st' =>
    match load_task st'.file with
    | .error e => (.error e, st')
    | .ok t =>
      match update t with
      | .error e => (.error e, st')
      | .ok t' => write_json_atomic write_ok st' t')

/-- `update_session` from `src/state.rs`, same discipline as `update_task`. -/
def update_session (lock_ok write_ok : Bool) (st : FsState SessionState)
    (update : SessionState → Except Chars SessionState) : Except Chars Unit × FsState SessionState :=
  with_lock lock_ok st (fun st' =>
    match load_session st'.file with
    | .error e => (.error e, st')
    | .ok s =>
      match update s with
      | .error e => (.error e, st')
      | .ok s' => write_json_atomic write_ok st' s')

/-- C10: for every mutator passed to `update_task` or `update_session`,
a mutator error (or a failed initial load) is propagated and the persisted
record file is unchanged — the new content is written only after the
mutator succeeds — and the sibling lock is released on the success and the
error path alike. -/
theorem update_task_session_atomic : ∀ (lock_ok write_ok : Bool)
    (stT : FsState TaskState) (fT : TaskState → Except Chars TaskState)
    (stS : FsState SessionState) (fS : SessionState → Except Chars SessionState),
    (lock_ok = true → (update_task lock_ok write_ok stT fT).2.lock_held = false) ∧
    (∀ t e, stT.file = .valid t → fT t = .error e → lock_ok = true →
      update_task lock_ok write_ok stT fT = (.error e, { stT with lock_held := false })) ∧
    ((∀ t, stT.file ≠ .valid t) → lock_ok = true →
      is_ok (update_task lock_ok write_ok stT fT).1 = false ∧
      (update_task lock_ok write_ok stT fT).2.file = stT.file) ∧
    (∀ t t', stT.file = .valid t → fT t = .ok t' → lock_ok = true → write_ok = true →
      update_task lock_ok write_ok stT fT =
        (.ok (), { stT with file := .valid t', lock_held := false })) ∧
    (lock_ok = true → (update_session lock_ok write_ok stS fS).2.lock_held = false) ∧
    (∀ s e, stS.file = .valid s → fS s = .error e → lock_ok = true →
      update_session lock_ok write_ok stS fS = (.error e, { stS with lock_held := false })) ∧
    ((∀ s, stS.file ≠ .valid s) → lock_ok = true →
      is_ok (update_session lock_ok write_ok stS fS).1 = false ∧
      (update_session lock_ok write_ok stS fS).2.file = stS.file) ∧
    (∀ s s', stS.file = .valid s → fS s = .ok s' → lock_ok = true → write_ok = true →
      update_session lock_ok write_ok stS fS =
        (.ok (), { stS with file := .valid s', lock_held := false })) := by
  intro lock_ok write_ok stT fT stS fS
  refine ⟨?_, ?_, ?_, ?_, ?_, ?_, ?_, ?_⟩
  · rintro rfl
    simp only [update_task, with_lock, if_true]
  · rintro t e hf hft rfl
    simp [update_task, with_lock, load_task, hf, hft]
  · rintro hnv rfl
    cases hf : stT.file with
    | missing => simp [update_task, with_lock, load_task, hf, is_ok]
    | corrupt => simp [update_task, with_lock, load_task, hf, is_ok]
    | valid t => exact absurd hf (hnv t)
  · rintro t t' hf hft rfl rfl
    simp [update_task, with_lock, load_task, hf, hft, write_json_atomic]
  · rintro rfl
    simp only [update_session, with_lock, if_true]
  · rintro s e hf hfs rfl
    simp [update_session, with_lock, load_session, hf, hfs]
  · rintro hnv rfl
    cases hf : stS.file with
    | missing => simp [update_session, with_lock, load_session, hf, is_ok]
    | corrupt => simp [update_session, with_lock, load_session, hf, is_ok]
    | valid s => exact absurd hf (hnv s)
  · rintro s s' hf hfs rfl rfl
    simp [update_session, with_lock, load_session, hf, hfs, write_json_atomic]

/-- `AgentKind` from `src/agent.rs`. -/
inductive AgentKind
  | code
  | writer
  deriving DecidableEq, Repr

/-- `AgentKind::stages` from `src/agent.rs`. -/
def stages : AgentKind → List Chars
  | .code => [str "spec", str "spec-review", str "spec-review-issues", str "planning",
      str "build", str "review", str "completed"]
  | .writer => [str "init", str "plan", str "write", str "edit", str "completed"]

/-- `AgentKind::queue_stages` from `src/agent.rs`: the stages the run-queue
driver processes, in priority order. -/
def queue_stages : AgentKind → List Chars
  | .code => [str "spec-review-issues", str "build", str "review"]
  | .writer => [str "write", str "edit"]

/-- `AgentKind::next_stage` from `src/agent.rs`. -/
def next_stage (agent : AgentKind) (stage : Chars) : Option Chars :=
  match agent with
  | .code =>
    if stage = str "spec" then some (str "planning")
    else if stage = str "spec-review" then some (str "planning")
    else if stage = str "spec-review-issues" then some (str "planning")
    else if stage = str "planning" then some (str "build")
    else if stage = str "build" then some (str "review")
    else if stage = str "review" then some (str "completed")
    else if stage = str "task" then some (str "completed")
    else none
  | .writer =>
    if stage = str "init" then some (str "plan")
    else if stage = str "plan" then some (str "write")
    else if stage = str "write" then some (str "edit")
    else if stage = str "edit" then some (str "completed")
    else none

/-- `determine_next_status` from `src/commands.rs`. -/
def determine_next_status (stage : Chars) (override_next : Bool) (next_stage_v : Chars)
    (has_open_issues : Bool) : TaskStatus :=
  if has_open_issues then .issues
  else if next_stage_v = str "completed" then .completed
  else if stage = str "review" && override_next then
    (if next_stage_v = str "spec-review-issues" then .pending else .issues)
  else .pending

/-- Resolution of `cmd_finish`'s next stage (`src/commands.rs`): an explicit
`--next` wins; finishing the whole-task stage `task` means `completed`;
otherwise the agent graph's `next_stage`, and no next stage is an error
(`none`). -/
def resolve_next (agent : AgentKind) (stage : Chars) (next_arg : Option Chars) : Option Chars :=
  match next_arg with
  | some n => some n
  | none => if stage = str "task" then some (str "completed") else next_stage agent stage

/-- The task-record update `cmd_finish` performs (`src/commands.rs`) once
the session is saved: a resolved next stage of `completed` is downgraded to
`build` when the task still has open issues, then the task's stage,
`updated_at`, `last_session` and status (via `determine_next_status`) are
set.  `none` models the bail when no next stage resolves. -/
def cmd_finish_task_update (agent : AgentKind) (stage : Chars) (next_arg : Option Chars)
    (has_open_issues : Bool) (now session_id : Chars) (t : TaskState) : Option TaskState :=
  match resolve_next agent stage next_arg with
  | none => none
  | some rn0 =>
    let rn := if has_open_issues && rn0 = str "completed" then str "build" else rn0
    some { t with
      stage := rn
      updated_at := now
      last_session := some session_id
      status := determine_next_status stage next_arg.isSome rn has_open_issues }

/-- C1: whenever the finished task still has an open issue, `cmd_finish`
never sets its stage to `completed`: the updated record's stage is not the
terminal stage, its status is `Issues` (never `Completed`), and if the
resolved next stage was `completed` it is downgraded to `build`. -/
theorem cmd_finish_blocks_completion : ∀ (agent : AgentKind) (stage : Chars)
    (next_arg : Option Chars) (now session_id : Chars) (t t' : TaskState),
    cmd_finish_task_update agent stage next_arg true now session_id t = some t' →
    t'.stage ≠ str "completed" ∧ t'.status = .issues ∧
    (resolve_next agent stage next_arg = some (str "completed") → t'.stage = str "build") := by
  intro agent stage next_arg now session_id t t' h
  unfold cmd_finish_task_update at h
  cases hr : resolve_next agent stage next_arg with
  | none => rw [hr] at h; cases h
  | some rn0 =>
    rw [hr] at h
    simp only [Option.some.injEq] at h
    by_cases hc : rn0 = str "completed"
    · subst hc
      rw [if_pos (by decide)] at h
      subst h
      exact ⟨(by decide : str "build" ≠ str "completed"), by simp [determine_next_status],
        fun _ => rfl⟩
    · rw [if_neg (by simp [hc])] at h
      subst h
      refine ⟨hc, by simp [determine_next_status], fun hcomp => ?_⟩
      exact absurd (Option.some.inj hcomp) hc

/-- A concrete task at the penultimate stage with open issues. -/
def task0 : TaskState :=
  ⟨str "demo", str "code", str "review", .issues, false, none,
   str "2024-01-01T00:00:00Z", str "2024-01-01T00:00:00Z", none, none⟩

/-- The record `cmd_finish` writes for `task0` on `finish(next=completed)`
with an open issue. -/
def finish_result : TaskState :=
  { task0 with
    stage := str "build"
    updated_at := str "2024-01-02T00:00:00Z"
    last_session := some (str "17-1")
    status := .issues }

/-- C1 (witness): the spec's scenario — a task at `review` with one open
issue, on `finish(next=completed)`, ends at stage `build` with status
`Issues`, not `Completed`. -/
theorem cmd_finish_blocks_completion_witness :
    finish_result.stage ≠ str "completed" ∧ finish_result.status = .issues ∧
    finish_result.stage = str "build" :=
  have h := cmd_finish_blocks_completion .code (str "review") (some (str "completed"))
    (str "2024-01-02T00:00:00Z") (str "17-1") task0 finish_result rfl
  ⟨h.1, h.2.1, h.2.2 rfl⟩

/-- `i64::MAX`, the rank a missing `queue_rank` sorts with
(`unwrap_or(i64::MAX)`). -/
def i64_max : Int := 9223372036854775807

/-- The rank key of a build-stage task: `queue_rank.unwrap_or(i64::MAX)`. -/
def rank_of (t : TaskState) : Int := t.queue_rank.getD i64_max

/-- The build-stage comparator of `next_eligible_task` as a boolean `≤`:
`queue_rank` ascending (missing rank sorts last), ties broken by
`added_at`.  `a ≤ b` here means the source comparator does not order `a`
after `b`. -/
def build_leb (a b : TaskState) : Bool :=
  decide (rank_of a < rank_of b) ||
  (decide (rank_of a = rank_of b) && chars_le a.added_at b.added_at)

/-- The build-stage ordering as a relation. -/
abbrev build_le (a b : TaskState) : Prop := build_leb a b = true

/-- The FIFO comparator (`added_at` ascending) used for every non-build
stage and for the completed-with-issues safety net. -/
def fifo_leb (a b : TaskState) : Bool := chars_le a.added_at b.added_at

/-- The FIFO ordering as a relation. -/
abbrev fifo_le (a b : TaskState) : Prop := fifo_leb a b = true

/-- The filter of `next_eligible_task` within one queue stage: non-held,
at that stage, with status Pending, Incomplete or Issues. -/
def eligible_in_stage (stage : Chars) (t : TaskState) : Bool :=
  !t.held && decide (t.stage = stage) &&
  (decide (t.status = .pending) || decide (t.status = .incomplete) ||
   decide (t.status = .issues))

/-- The safety-net filter of `next_eligible_task`: non-held, parked at
`completed`, still carrying status Issues. -/
def completed_issues (t : TaskState) : Bool :=
  !t.held && decide (t.stage = str "completed") && decide (t.status = .issues)

/-- The stage loop of `next_eligible_task` (`src/commands.rs`): within the
first stage whose filtered task list is nonempty, sort (build stage: by
rank then `added_at`; otherwise FIFO) and take the first.  Rust's
`sort_by` is a stable sort; `List.insertionSort` is a stable sort over the
same total preorder, so the sorted lists — hence the heads — coincide. -/
def next_eligible_in_stages (tasks : List TaskState) : List Chars → Option TaskState
  | [] => none
  | stage :: rest =>
    let stage_tasks := tasks.filter (eligible_in_stage stage)
    if stage_tasks.isEmpty then next_eligible_in_stages tasks rest
    else if stage = str "build" then (List.insertionSort build_le stage_tasks).head?
    else (List.insertionSort fifo_le stage_tasks).head?

/-- `next_eligible_task` from `src/commands.rs`: the stage loop over the
agent's queue stages, then the safety net resurrecting a non-held
completed task with status Issues into the build stage (earliest
`added_at` first). -/
def next_eligible_task (agent : AgentKind) (tasks : List TaskState) : Option TaskState :=
  match next_eligible_in_stages tasks (queue_stages agent) with
  | some t => some t
  | none =>
    let issues_tasks := tasks.filter completed_issues
    if issues_tasks.isEmpty then none
    else (List.insertionSort fifo_le issues_tasks).head?.map
      (fun t => { t with stage := str "build" })

/-- The ordering the claim attaches to a stage: build ordering for the
build stage, FIFO for every other. -/
def stage_le (stage : Chars) (a b : TaskState) : Prop :=
  if stage = str "build" then build_le a b else fifo_le a b

lemma chars_le_refl : ∀ l : Chars, chars_le l l = true := by
  intro l
  induction l with
  | nil => rfl
  | cons x xs ih => simp [chars_le, ih]

lemma chars_le_total : ∀ a b : Chars, chars_le a b = true ∨ chars_le b a = true := by
  intro a
  induction a with
  | nil => intro b; exact Or.inl rfl
  | cons x xs ih =>
    intro b
    cases b with
    | nil => exact Or.inr rfl
    | cons y ys =>
      rcases Nat.lt_trichotomy x.toNat y.toNat with h | h | h
      · exact Or.inl (by simp [chars_le, h])
      · rcases ih ys with hle | hle
        · exact Or.inl (by simp [chars_le, h, hle])
        · exact Or.inr (by simp [chars_le, h.symm, hle])
      · exact Or.inr (by simp [chars_le, h])

lemma chars_le_trans : ∀ a b c : Chars, chars_le a b = true → chars_le b c = true →
    chars_le a c = true := by
  intro a
  induction a with
  | nil => intro b c _ _; rfl
  | cons x xs ih =>
    intro b c hab hbc
    cases b with
    | nil => simp [chars_le] at hab
    | cons y ys =>
      cases c with
      | nil => simp [chars_le] at hbc
      | cons z zs =>
        by_cases hxy : x.toNat < y.toNat
        · by_cases hyz : y.toNat < z.toNat
          · simp [chars_le, lt_trans hxy hyz]
          · by_cases hzy : z.toNat < y.toNat
            · simp [chars_le, hyz, hzy] at hbc
            · have : x.toNat < z.toNat := by omega
              simp [chars_le, this]
        · by_cases hyx : y.toNat < x.toNat
          · simp [chars_le, hxy, hyx] at hab
          · by_cases hyz : y.toNat < z.toNat
            · have : x.toNat < z.toNat := by omega
              simp [chars_le, this]
            · by_cases hzy : z.toNat < y.toNat
              · simp [chars_le, hyz, hzy] at hbc
              · have h1 : ¬ x.toNat < z.toNat := by omega
                have h2 : ¬ z.toNat < x.toNat := by omega
                simp only [chars_le, if_neg hxy, if_neg hyx] at hab
                simp only [chars_le, if_neg hyz, if_neg hzy] at hbc
                simp only [chars_le, if_neg h1, if_neg h2]
                exact ih ys zs hab hbc

lemma fifo_le_refl (t : TaskState) : fifo_le t t := by
  simp [fifo_le, fifo_leb, chars_le_refl]

lemma build_le_refl (t : TaskState) : build_le t t := by
  simp [build_le, build_leb, chars_le_refl]

instance : IsTotal TaskState fifo_le :=
  ⟨fun a b => by
    simp only [fifo_le, fifo_leb]
    exact chars_le_total a.added_at b.added_at⟩

instance : IsTrans TaskState fifo_le :=
  ⟨fun a b c hab hbc => by
    simp only [fifo_le, fifo_leb] at hab hbc ⊢
    exact chars_le_trans _ _ _ hab hbc⟩

instance : IsTotal TaskState build_le :=
  ⟨fun a b => by
    simp only [build_le, build_leb, Bool.or_eq_true, Bool.and_eq_true, decide_eq_true_eq]
    rcases lt_trichotomy (rank_of a) (rank_of b) with h | h | h
    · exact Or.inl (Or.inl h)
    · rcases chars_le_total a.added_at b.added_at with hle | hle
      · exact Or.inl (Or.inr ⟨h, hle⟩)
      · exact Or.inr (Or.inr ⟨h.symm, hle⟩)
    · exact Or.inr (Or.inl h)⟩

instance : IsTrans TaskState build_le :=
  ⟨fun a b c hab hbc => by
    simp only [build_le, build_leb, Bool.or_eq_true, Bool.and_eq_true,
      decide_eq_true_eq] at hab hbc ⊢
    rcases hab with h1 | ⟨h1, h1'⟩ <;> rcases hbc with h2 | ⟨h2, h2'⟩
    · exact Or.inl (lt_trans h1 h2)
    · exact Or.inl (h2 ▸ h1)
    · exact Or.inl (h1 ▸ h2)
    · exact Or.inr ⟨h1.trans h2, chars_le_trans _ _ _ h1' h2'⟩⟩

lemma head_min_of_sort {r : TaskState → TaskState → Prop} [DecidableRel r]
    [IsTotal TaskState r] [IsTrans TaskState r] (hrefl : ∀ t, r t t)
    (l : List TaskState) (x : TaskState)
    (hx : (List.insertionSort r l).head? = some x) :
    x ∈ l ∧ ∀ t ∈ l, r x t := by
  have sorted := List.sorted_insertionSort r l
  have perm := List.perm_insertionSort r l
  cases hs : List.insertionSort r l with
  | nil => rw [hs] at hx; cases hx
  | cons a rest =>
    rw [hs] at hx
    have hax : a = x := by injection hx
    subst hax
    rw [hs] at sorted perm
    refine ⟨perm.mem_iff.mp (List.mem_cons_self _ _), ?_⟩
    intro t ht
    have ht' : t ∈ a :: rest := perm.mem_iff.mpr ht
    rcases List.mem_cons.mp ht' with rfl | htr
    · exact hrefl t
    · exact List.rel_of_sorted_cons sorted t htr

lemma insertionSort_head_none {r : TaskState → TaskState → Prop} [DecidableRel r]
    (l : List TaskState) (h : (List.insertionSort r l).head? = none) : l = [] := by
  rw [List.head?_eq_none_iff] at h
  have := List.perm_insertionSort r l
  rw [h] at this
  exact (this.symm).eq_nil

lemma next_eligible_in_stages_none_char (tasks : List TaskState) :
    ∀ sl, next_eligible_in_stages tasks sl = none →
      ∀ s ∈ sl, ∀ t ∈ tasks, eligible_in_stage s t = false := by
  intro sl
  induction sl with
  | nil => intro _ s hs; cases hs
  | cons stage rest ih =>
    intro h s hs t ht
    unfold next_eligible_in_stages at h
    by_cases hemp : (tasks.filter (eligible_in_stage stage)).isEmpty = true
    · rw [if_pos hemp] at h
      rcases List.mem_cons.mp hs with rfl | hs'
      · have hnil : tasks.filter (eligible_in_stage s) = [] := List.isEmpty_iff.mp hemp
        have := List.filter_eq_nil_iff.mp hnil t ht
        simpa using this
      · exact ih h s hs' t ht
    · rw [if_neg hemp] at h
      exfalso
      by_cases hb : stage = str "build"
      · rw [if_pos hb] at h
        exact hemp (by rw [insertionSort_head_none _ h]; rfl)
      · rw [if_neg hb] at h
        exact hemp (by rw [insertionSort_head_none _ h]; rfl)

lemma next_eligible_in_stages_some_char (tasks : List TaskState) :
    ∀ sl r, next_eligible_in_stages tasks sl = some r →
      ∃ pre s post, sl = pre ++ s :: post ∧
        (∀ s' ∈ pre, ∀ t ∈ tasks, eligible_in_stage s' t = false) ∧
        eligible_in_stage s r = true ∧ r ∈ tasks ∧
        (∀ t ∈ tasks, eligible_in_stage s t = true → stage_le s r t) := by
  intro sl
  induction sl with
  | nil => intro r h; cases h
  | cons stage rest ih =>
    intro r h
    unfold next_eligible_in_stages at h
    by_cases hemp : (tasks.filter (eligible_in_stage stage)).isEmpty = true
    · rw [if_pos hemp] at h
      obtain ⟨pre, s, post, heq, hpre, he, hmem, hmin⟩ := ih r h
      refine ⟨stage :: pre, s, post, by rw [heq]; rfl, ?_, he, hmem, hmin⟩
      intro s' hs' t ht
      rcases List.mem_cons.mp hs' with rfl | hs''
      · have hnil : tasks.filter (eligible_in_stage s') = [] := List.isEmpty_iff.mp hemp
        simpa using List.filter_eq_nil_iff.mp hnil t ht
      · exact hpre s' hs'' t ht
    · rw [if_neg hemp] at h
      by_cases hb : stage = str "build"
      · rw [if_pos hb] at h
        have hmin := head_min_of_sort build_le_refl (tasks.filter (eligible_in_stage stage)) r h
        have hmem := List.mem_filter.mp hmin.1
        refine ⟨[], stage, rest, rfl, by simp, hmem.2, hmem.1, ?_⟩
        intro t ht he
        unfold stage_le
        rw [if_pos hb]
        exact hmin.2 t (List.mem_filter.mpr ⟨ht, he⟩)
      · rw [if_neg hb] at h
        have hmin := head_min_of_sort fifo_le_refl (tasks.filter (eligible_in_stage stage)) r h
        have hmem := List.mem_filter.mp hmin.1
        refine ⟨[], stage, rest, rfl, by simp, hmem.2, hmem.1, ?_⟩
        intro t ht he
        unfold stage_le
        rw [if_neg hb]
        exact hmin.2 t (List.mem_filter.mpr ⟨ht, he⟩)

/-- Task A of the spec's queue-ordering scenario: build stage, no rank,
added first. -/
def taskA : TaskState :=
  ⟨str "task-a", str "code", str "build", .pending, false, none,
   str "2024-01-01T00:00:00Z", str "2024-01-01T00:00:00Z", none, none⟩

/-- Task B: build stage, rank 2, added second. -/
def taskB : TaskState :=
  ⟨str "task-b", str "code", str "build", .pending, false, some 2,
   str "2024-01-02T00:00:00Z", str "2024-01-02T00:00:00Z", none, none⟩

/-- Task C: build stage, rank 1, added third. -/
def taskC : TaskState :=
  ⟨str "task-c", str "code", str "build", .pending, false, some 1,
   str "2024-01-03T00:00:00Z", str "2024-01-03T00:00:00Z", none, none⟩

/-- C3: `next_eligible_task` walks the agent's queue-eligible stages in
order; within the first stage holding a non-held Pending/Incomplete/Issues
task it returns a candidate minimal for that stage's ordering (build:
rank then `added_at`; otherwise `added_at`); with no stage candidate it
resurrects the earliest-added non-held completed task with status Issues,
stage rewritten to `build`; otherwise none.  In particular the scenario
tasks A (no rank, added first), B (rank 2), C (rank 1) are selected in the
order C, B, A. -/
theorem next_eligible_task_spec : ∀ (agent : AgentKind) (tasks : List TaskState),
    (next_eligible_task agent tasks = none →
      (∀ s ∈ queue_stages agent, ∀ t ∈ tasks, eligible_in_stage s t = false) ∧
      (∀ t ∈ tasks, completed_issues t = false)) ∧
    (∀ r, next_eligible_task agent tasks = some r →
      (∃ pre s post, queue_stages agent = pre ++ s :: post ∧
        (∀ s' ∈ pre, ∀ t ∈ tasks, eligible_in_stage s' t = false) ∧
        eligible_in_stage s r = true ∧ r ∈ tasks ∧
        (∀ t ∈ tasks, eligible_in_stage s t = true → stage_le s r t)) ∨
      ((∀ s ∈ queue_stages agent, ∀ t ∈ tasks, eligible_in_stage s t = false) ∧
       ∃ t0, t0 ∈ tasks ∧ completed_issues t0 = true ∧
         r = { t0 with stage := str "build" } ∧
         (∀ t ∈ tasks, completed_issues t = true → fifo_le t0 t))) ∧
    (next_eligible_task .code [taskA, taskB, taskC] = some taskC ∧
     next_eligible_task .code [taskA, taskB] = some taskB ∧
     next_eligible_task .code [taskA] = some taskA) := by
  intro agent tasks
  refine ⟨?_, ?_, by decide, by decide, by decide⟩
  · intro h
    unfold next_eligible_task at h
    cases hst : next_eligible_in_stages tasks (queue_stages agent) with
    | some t => rw [hst] at h; cases h
    | none =>
      rw [hst] at h
      refine ⟨next_eligible_in_stages_none_char tasks _ hst, ?_⟩
      by_cases hemp : (tasks.filter completed_issues).isEmpty = true
      · intro t ht
        have hnil : tasks.filter completed_issues = [] := List.isEmpty_iff.mp hemp
        simpa using List.filter_eq_nil_iff.mp hnil t ht
      · rw [if_neg hemp] at h
        exfalso
        cases hh : (List.insertionSort fifo_le (tasks.filter completed_issues)).head? with
        | none => exact hemp (by rw [insertionSort_head_none _ hh]; rfl)
        | some t0 => rw [hh] at h; cases h
  · intro r h
    unfold next_eligible_task at h
    cases hst : next_eligible_in_stages tasks (queue_stages agent) with
    | some t =>
      rw [hst] at h
      have : t = r := by injection h
      subst this
      exact Or.inl (next_eligible_in_stages_some_char tasks _ t hst)
    | none =>
      rw [hst] at h
      by_cases hemp : (tasks.filter completed_issues).isEmpty = true
      · rw [if_pos hemp] at h; cases h
      · rw [if_neg hemp] at h
        cases hh : (List.insertionSort fifo_le (tasks.filter completed_issues)).head? with
        | none => rw [hh] at h; cases h
        | some t0 =>
          rw [hh] at h
          have hr : r = { t0 with stage := str "build" } := (Option.some.inj h).symm
          have hmin := head_min_of_sort fifo_le_refl (tasks.filter completed_issues) t0 hh
          have hmem := List.mem_filter.mp hmin.1
          refine Or.inr ⟨next_eligible_in_stages_none_char tasks _ hst,
            t0, hmem.1, hmem.2, hr, ?_⟩
          intro t ht he
          exact hmin.2 t (List.mem_filter.mpr ⟨ht, he⟩)

/-- `StageResult` from `src/commands.rs`: the outcome of one stage attempt. -/
inductive StageResult
  | finished
  | interrupted
  | noFinish
  deriving DecidableEq, Repr

/-- The loop-local state of `cmd_run_queue`: the current task name, whether
a claim guard is held, and the review→build round-trip counter. -/
structure QueueLoopState where
  current_task : Option Chars
  has_claim : Bool
  review_loops : Nat
  deriving DecidableEq, Repr

/-- The observations one iteration of `cmd_run_queue` makes of the world:
whether the current task's file exists, the loaded task record, whether
claiming the current task succeeds, the stage attempt's result, the record
re-loaded after a finished review stage, the task listing when no task is
current, and whether claiming a newly picked task succeeds. -/
structure QueueIterEnv where
  task_exists : Bool
  loaded : TaskState
  claim_ok : Bool
  stage_result : StageResult
  post_loaded : TaskState
  listed : List TaskState
  pick_claim_ok : Bool

/-- The persisted task mutations an iteration performs, in order:
status := Running (preserving Issues), held := true (move to backlog),
status := Incomplete, status := Failed. -/
inductive TaskEffect
  | set_running (task : Chars)
  | set_held (task : Chars)
  | set_incomplete (task : Chars)
  | set_failed (task : Chars)
  deriving DecidableEq, Repr

/-- The outcome of one iteration of `cmd_run_queue`'s loop: continue with a
new loop state, or return from the command, with the recorded mutations. -/
inductive QueueStep
  | next (st : QueueLoopState) (effects : List TaskEffect)
  | done (effects : List TaskEffect)
  deriving DecidableEq, Repr

/-- The loop-limit resolution at the top of `cmd_run_queue`:
`let loop_limit = if loop_limit == 0 { 100 } else { loop_limit }`. -/
def effective_loop_limit (loop_limit : Nat) : Nat :=
  if loop_limit = 0 then 100 else loop_limit

/-- One iteration of `cmd_run_queue`'s main loop (`src/commands.rs`),
with the filesystem, claiming and stage execution abstracted as `env`;
`loop_limit` is the already-resolved effective limit. -/
def run_queue_step (agent : AgentKind) (loop_limit : Nat) (st : QueueLoopState)
    (env : QueueIterEnv) : QueueStep :=
  match st.current_task with
  | some _ =>
    if !env.task_exists then .next ⟨none, false, st.review_loops⟩ []
    else
      let ts := env.loaded
      if ts.held then .next ⟨none, false, st.review_loops⟩ []
      else if ts.stage = str "completed" then .next ⟨none, false, st.review_loops⟩ []
      else if ¬ ts.stage ∈ queue_stages agent then .done []
      else if !st.has_claim && !env.claim_ok then .done []
      else
        let effects := [TaskEffect.set_running ts.task]
        match env.stage_result with
        | .finished =>
          if ts.stage = str "review" ∧ env.post_loaded.stage = str "build" then
            if st.review_loops + 1 ≥ loop_limit then
              .next ⟨none, false, 0⟩ (effects ++ [.set_held ts.task])
            else .next ⟨st.current_task, true, st.review_loops + 1⟩ effects
          else .next ⟨st.current_task, true, st.review_loops⟩ effects
        | .interrupted => .done (effects ++ [.set_incomplete ts.task])
        | .noFinish => .done (effects ++ [.set_failed ts.task])
  | none =>
    match next_eligible_task agent env.listed with
    | none => .done []
    | some t =>
      if !env.pick_claim_ok then .next st []
      else .next ⟨some t.task, true, 0⟩ []

/-- C6: `cmd_run_queue` treats a caller-supplied limit of 0 as the default
100; each time the current task finishes the review stage and its stage is
then `build`, the review→build counter increments, and once the counter
reaches the effective limit the task is forcibly held (held flag set,
moved to backlog) and dropped as current instead of continuing; the
counter is reset to zero whenever a task (in particular a different one)
becomes the current task. -/
theorem run_queue_loop_guard : ∀ (agent : AgentKind) (L : Nat) (st : QueueLoopState)
    (env : QueueIterEnv) (name : Chars),
    (effective_loop_limit 0 = 100 ∧ (L ≠ 0 → effective_loop_limit L = L)) ∧
    (st.current_task = some name →
     env.task_exists = true →
     env.loaded.held = false →
     env.loaded.stage = str "review" →
     env.loaded.stage ∈ queue_stages agent →
     st.has_claim = true →
     env.stage_result = .finished →
     env.post_loaded.stage = str "build" →
       ((st.review_loops + 1 ≥ effective_loop_limit L →
          run_queue_step agent (effective_loop_limit L) st env =
            .next ⟨none, false, 0⟩
              [.set_running env.loaded.task, .set_held env.loaded.task]) ∧
        (st.review_loops + 1 < effective_loop_limit L →
          run_queue_step agent (effective_loop_limit L) st env =
            .next ⟨some name, true, st.review_loops + 1⟩
              [.set_running env.loaded.task]))) ∧
    (st.current_task = none →
     ∀ t, next_eligible_task agent env.listed = some t →
     env.pick_claim_ok = true →
       run_queue_step agent (effective_loop_limit L) st env =
         .next ⟨some t.task, true, 0⟩ []) := by
  intro agent L st env name
  refine ⟨⟨rfl, fun hL => by simp [effective_loop_limit, hL]⟩, ?_, ?_⟩
  · intro hct hex hheld hstage hqs hclaim hres hpost
    obtain ⟨ct, hc, rl⟩ := st
    simp only at hct hclaim
    subst hct
    subst hclaim
    have hnc : ¬ (str "review" = str "completed") := by decide
    rw [hstage] at hqs
    constructor
    · intro hge
      simp [run_queue_step, hex, hheld, hnc, hqs, hstage, hpost, hres, hge]
    · intro hlt
      simp [run_queue_step, hex, hheld, hnc, hqs, hstage, hpost, hres, Nat.not_le.mpr hlt]
  · intro hct t hnext hpick
    obtain ⟨ct, hc, rl⟩ := st
    simp only at hct
    subst hct
    simp [run_queue_step, hnext, hpick]

/-- One observation `try_wait` yields for the root process: exited, still
running, or an error (which the source latches like an exit — the root is
no longer observably alive). -/
inductive TryWaitRes
  | exited
  | running
  | errored
  deriving DecidableEq, Repr

/-- One tick of the shutdown wait loop: the root observation and the set
of pids `pid_alive` reports live.  A trace is finite because every
iteration sleeps 100 ms and the loop is bounded by its wall-clock timeout
(`start.elapsed() < timeout`). -/
structure TreeTick where
  root_obs : TryWaitRes
  alive : List Int
  deriving DecidableEq, Repr

/-- `wait_for_process_tree_exit` from `src/commands.rs` over a tick trace:
latch root exit, retain only the still-live known descendants, and return
true the moment the root has exited and no known descendant is alive; an
exhausted trace is the timeout.  Returns (result, root-exited latch,
remaining known descendants). -/
def wait_for_process_tree_exit : List TreeTick → Bool → List Int → Bool × Bool × List Int
  | [], re, kn => (false, re, kn)
  | t :: rest, re, kn =>
    let re' := re || decide (t.root_obs ≠ .running)
    let kn' := kn.filter (fun p => t.alive.contains p)
    if re' && kn'.isEmpty then (true, re', kn')
    else wait_for_process_tree_exit rest re' kn'

/-- The signals `terminate_child` escalates through. -/
inductive Sig
  | sigint
  | sigterm
  | sigkill
  deriving DecidableEq, Repr

/-- The environment `terminate_child` runs against: the pids each
`collect_descendant_pids` re-discovery returns (indexed by signalling
round), and the tick trace of each wait call (indexed in order). -/
structure ShutdownEnv where
  discover : Nat → List Int
  waits : Nat → List TreeTick

/-- What `terminate_child` did: the tree-wide signal rounds in order,
whether the forced `child.kill()` fallback ran, and whether the wait that
decided an early return had observed the root exit. -/
structure ShutdownResult where
  sigs : List Sig
  forced_kill : Bool
  root_confirmed : Bool
  deriving DecidableEq, Repr

/-- `signal_process_tree`'s bookkeeping (`src/commands.rs`): extend the
known-descendant set with the re-discovered pids; the signals themselves
affect the world only through later ticks. -/
def signal_process_tree (known discovered : List Int) : List Int :=
  known ++ discovered.filter (fun p => !known.contains p)

/-- The known-descendant set as `terminate_child` signals round `i`
(0–2: SIGINT rounds, 3: SIGTERM, 4: SIGKILL): the set left by the previous
round's wait, extended by that round's re-discovery. -/
def tc_known (env : ShutdownEnv) : Nat → List Int
  | 0 => signal_process_tree [] (env.discover 0)
  | i + 1 =>
    signal_process_tree
      (wait_for_process_tree_exit (env.waits i) false (tc_known env i)).2.2
      (env.discover (i + 1))

/-- The wait following signalling round `i` of `terminate_child`. -/
def tc_res (env : ShutdownEnv) (i : Nat) : Bool × Bool × List Int :=
  wait_for_process_tree_exit (env.waits i) false (tc_known env i)

/-- The final wait of `terminate_child`, run after the forced
`child.kill()` with the descendant set left by the SIGKILL round's wait
(no further re-discovery happens between them). -/
def tc_final (env : ShutdownEnv) : Bool × Bool × List Int :=
  wait_for_process_tree_exit (env.waits 5) false (tc_res env 4).2.2

/-- `terminate_child` from `src/commands.rs`: up to 3 SIGINT rounds each
followed by a 500 ms wait, one SIGTERM round with a 1 s wait, then a
SIGKILL round, a wait, the forced `child.kill()`, and a final wait; each
round re-discovers descendants before signalling (`tc_known`).  Early
returns fire as soon as a wait reports the tree dead. -/
def terminate_child (env : ShutdownEnv) : ShutdownResult :=
  if (tc_res env 0).1 then ⟨[.sigint], false, (tc_res env 0).2.1⟩
  else if (tc_res env 1).1 then ⟨[.sigint, .sigint], false, (tc_res env 1).2.1⟩
  else if (tc_res env 2).1 then
    ⟨[.sigint, .sigint, .sigint], false, (tc_res env 2).2.1⟩
  else if (tc_res env 3).1 then
    ⟨[.sigint, .sigint, .sigint, .sigterm], false, (tc_res env 3).2.1⟩
  else
    ⟨[.sigint, .sigint, .sigint, .sigterm, .sigkill], true, (tc_final env).2.1⟩

lemma wait_true_aux : ∀ (ticks : List TreeTick) (re : Bool) (kn : List Int),
    (wait_for_process_tree_exit ticks re kn).1 = true →
    (wait_for_process_tree_exit ticks re kn).2.1 = true ∧
    (re = true ∨ ∃ t ∈ ticks, t.root_obs ≠ .running) := by
  intro ticks
  induction ticks with
  | nil => intro re kn h; cases h
  | cons t rest ih =>
    intro re kn h
    unfold wait_for_process_tree_exit at h ⊢
    by_cases hc : ((re || decide (t.root_obs ≠ .running)) &&
        (kn.filter (fun p => t.alive.contains p)).isEmpty) = true
    · rw [if_pos hc] at h ⊢
      have hre : (re || decide (t.root_obs ≠ .running)) = true :=
        ((Bool.and_eq_true _ _).mp hc).1
      refine ⟨hre, ?_⟩
      rcases (Bool.or_eq_true _ _).mp hre with hre' | hre'
      · exact Or.inl hre'
      · exact Or.inr ⟨t, List.mem_cons_self _ _, of_decide_eq_true hre'⟩
    · rw [if_neg hc] at h ⊢
      obtain ⟨h1, h2⟩ := ih _ _ h
      refine ⟨h1, ?_⟩
      rcases h2 with hre | ⟨t', ht', hobs⟩
      · rcases (Bool.or_eq_true _ _).mp hre with hre' | hre'
        · exact Or.inl hre'
        · exact Or.inr ⟨t, List.mem_cons_self _ _, of_decide_eq_true hre'⟩
      · exact Or.inr ⟨t', List.mem_cons_of_mem _ ht', hobs⟩

lemma tc_res_confirm (env : ShutdownEnv) (i : Nat) (h : (tc_res env i).1 = true) :
    (tc_res env i).2.1 = true ∧ ∃ t ∈ env.waits i, t.root_obs ≠ TryWaitRes.running := by
  obtain ⟨h1, h2⟩ := wait_true_aux (env.waits i) false (tc_known env i) h
  refine ⟨h1, ?_⟩
  rcases h2 with hre | hobs
  · cases hre
  · exact hobs

/-- C7: `terminate_child` always terminates and never returns while the
root is still observably alive: over every behavior of the process tree
(every re-discovery result and wait-tick trace), the run either ends in
the forced `child.kill()` of the root handle after exactly the escalation
SIGINT, SIGINT, SIGINT, SIGTERM, SIGKILL, or returns early with the tree
confirmed dead — a wait-loop tick observed the root no longer running —
after at most 3 SIGINT rounds and at most one SIGTERM. -/
theorem terminate_child_converges : ∀ env : ShutdownEnv,
    ((terminate_child env).forced_kill = true ∧
     (terminate_child env).sigs = [.sigint, .sigint, .sigint, .sigterm, .sigkill]) ∨
    ((terminate_child env).forced_kill = false ∧
     (terminate_child env).root_confirmed = true ∧
     (∃ i, i < 4 ∧ ∃ t ∈ env.waits i, t.root_obs ≠ TryWaitRes.running) ∧
     ((terminate_child env).sigs = [.sigint] ∨
      (terminate_child env).sigs = [.sigint, .sigint] ∨
      (terminate_child env).sigs = [.sigint, .sigint, .sigint] ∨
      (terminate_child env).sigs = [.sigint, .sigint, .sigint, .sigterm])) := by
  intro env
  unfold terminate_child
  by_cases h0 : (tc_res env 0).1 = true
  · obtain ⟨hc, hobs⟩ := tc_res_confirm env 0 h0
    rw [if_pos h0]
    exact Or.inr ⟨rfl, hc, ⟨0, by omega, hobs⟩, Or.inl rfl⟩
  · rw [if_neg h0]
    by_cases h1 : (tc_res env 1).1 = true
    · obtain ⟨hc, hobs⟩ := tc_res_confirm env 1 h1
      rw [if_pos h1]
      exact Or.inr ⟨rfl, hc, ⟨1, by omega, hobs⟩, Or.inr (Or.inl rfl)⟩
    · rw [if_neg h1]
      by_cases h2 : (tc_res env 2).1 = true
      · obtain ⟨hc, hobs⟩ := tc_res_confirm env 2 h2
        rw [if_pos h2]
        exact Or.inr ⟨rfl, hc, ⟨2, by omega, hobs⟩, Or.inr (Or.inr (Or.inl rfl))⟩
      · rw [if_neg h2]
        by_cases h3 : (tc_res env 3).1 = true
        · obtain ⟨hc, hobs⟩ := tc_res_confirm env 3 h3
          rw [if_pos h3]
          exact Or.inr ⟨rfl, hc, ⟨3, by omega, hobs⟩, Or.inr (Or.inr (Or.inr rfl))⟩
        · rw [if_neg h3]
          exact Or.inl ⟨rfl, rfl⟩

/-- `IssueStatus` from `src/issues.rs` (`opened` renders as `open`). -/
inductive IssueStatus
  | opened
  | resolved
  deriving DecidableEq, Repr

/-- `IssueStatus::as_str`. -/
def issue_status_as_str : IssueStatus → Chars
  | .opened => str "open"
  | .resolved => str "resolved"

/-- `IssueStatus::from_str`: trim, lowercase, match. -/
def issue_status_from_str (value : Chars) : Except Chars IssueStatus :=
  let v := to_lower (rust_trim value)
  if v = str "open" then .ok .opened
  else if v = str "resolved" then .ok .resolved
  else .error (str "Invalid issue status")

/-- `IssuePriority` from `src/issues.rs`. -/
inductive IssuePriority
  | p0
  | p1
  | p2
  | p3
  deriving DecidableEq, Repr

/-- `IssuePriority::as_str`. -/
def issue_priority_as_str : IssuePriority → Chars
  | .p0 => str "P0"
  | .p1 => str "P1"
  | .p2 => str "P2"
  | .p3 => str "P3"

/-- `strip_prefix('p').unwrap_or` on the normalized priority token. -/
def strip_p : Chars → Chars
  | 'p' :: rest => rest
  | l => l

/-- `IssuePriority::from_str`: trim, lowercase, drop a leading `p`, match
the digit. -/
def issue_priority_from_str (value : Chars) : Except Chars IssuePriority :=
  let token := strip_p (to_lower (rust_trim value))
  if token = str "0" then .ok .p0
  else if token = str "1" then .ok .p1
  else if token = str "2" then .ok .p2
  else if token = str "3" then .ok .p3
  else .error (str "Invalid priority")

/-- `IssueType` from `src/issues.rs`. -/
inductive IssueType
  | spec
  | build
  | bug
  | test
  | perf
  | other
  deriving DecidableEq, Repr

/-- `IssueType::as_str`. -/
def issue_type_as_str : IssueType → Chars
  | .spec => str "spec"
  | .build => str "build"
  | .bug => str "bug"
  | .test => str "test"
  | .perf => str "perf"
  | .other => str "other"

/-- `IssueType::from_str` (`performance` is an accepted alias of `perf`). -/
def issue_type_from_str (value : Chars) : Except Chars IssueType :=
  let v := to_lower (rust_trim value)
  if v = str "spec" then .ok .spec
  else if v = str "build" then .ok .build
  else if v = str "bug" then .ok .bug
  else if v = str "test" then .ok .test
  else if v = str "perf" then .ok .perf
  else if v = str "performance" then .ok .perf
  else if v = str "other" then .ok .other
  else .error (str "Invalid issue type")

/-- `IssueSource` from `src/issues.rs`. -/
inductive IssueSource
  | review
  | debug
  | submit
  | manual
  deriving DecidableEq, Repr

/-- `IssueSource::as_str`. -/
def issue_source_as_str : IssueSource → Chars
  | .review => str "review"
  | .debug => str "debug"
  | .submit => str "submit"
  | .manual => str "manual"

/-- `IssueSource::from_str`. -/
def issue_source_from_str (value : Chars) : Except Chars IssueSource :=
  let v := to_lower (rust_trim value)
  if v = str "review" then .ok .review
  else if v = str "debug" then .ok .debug
  else if v = str "submit" then .ok .submit
  else if v = str "manual" then .ok .manual
  else .error (str "Invalid issue source")

/-- `Issue` from `src/issues.rs`. -/
structure Issue where
  id : Chars
  title : Chars
  status : IssueStatus
  priority : IssuePriority
  task : Option Chars
  issue_type : IssueType
  source : IssueSource
  created_at : Chars
  updated_at : Chars
  file : Option Chars
  body : Option Chars
  deriving DecidableEq, Repr

/-- `render_issue` from `src/issues.rs`: the `---`-delimited frontmatter
block of `key: value` lines, then a blank line and the trimmed body when
the body's trim is nonempty, all joined with `\n`. -/
def render_issue (issue : Issue) : Chars :=
  let task := issue.task.getD (str "-")
  let file := issue.file.getD (str "-")
  let lines : List Chars :=
    [str "---",
     str "id: " ++ issue.id,
     str "title: " ++ issue.title,
     str "status: " ++ issue_status_as_str issue.status,
     str "priority: " ++ issue_priority_as_str issue.priority,
     str "task: " ++ task,
     str "type: " ++ issue_type_as_str issue.issue_type,
     str "source: " ++ issue_source_as_str issue.source,
     str "created_at: " ++ issue.created_at,
     str "updated_at: " ++ issue.updated_at,
     str "file: " ++ file,
     str "---"]
  let lines :=
    match issue.body with
    | some body =>
      if rust_trim body ≠ [] then lines ++ [[], rust_trim body] else lines
    | none => lines
  join_nl lines

/-- The frontmatter line loop of `parse_frontmatter`: stop at the first
`---` line (the rest is the body), skip blank lines, record trimmed
`key: value` pairs split at the first colon, ignore other lines. -/
def parse_fm_lines : List Chars → List (Chars × Chars) × List Chars
  | [] => ([], [])
  | line :: rest =>
    if rust_trim line = str "---" then ([], rest)
    else if rust_trim line = [] then parse_fm_lines rest
    else
      match split_once ':' line with
      | some (k, v) =>
        let r := parse_fm_lines rest
        ((rust_trim k, rust_trim v) :: r.1, r.2)
      | none => parse_fm_lines rest

/-- `parse_frontmatter` from `src/issues.rs`: a first line of `---` opens
a frontmatter block read by `parse_fm_lines`; otherwise everything is
body.  The body is the remaining lines re-joined with `\n`. -/
def parse_frontmatter (content : Chars) : List (Chars × Chars) × Chars :=
  match rust_lines content with
  | [] => ([], [])
  | first :: rest =>
    if rust_trim first = str "---" then
      let r := parse_fm_lines rest
      (r.1, join_nl r.2)
    else ([], join_nl (first :: rest))

/-- `HashMap::get` over the insertion list: the last insertion of a key
wins, as `HashMap::insert` overwrites. -/
def fm_get (fm : List (Chars × Chars)) (key : Chars) : Option Chars :=
  match fm.reverse.find? (fun kv => decide (kv.1 = key)) with
  | some kv => some kv.2
  | none => none

/-- `frontmatter.get(key).cloned().ok_or_else(|| anyhow!(msg))`. -/
def require (fm : List (Chars × Chars)) (key msg : Chars) : Except Chars Chars :=
  match fm_get fm key with
  | some v => .ok v
  | none => .error msg

/-- The `task`/`file` handling of `parse_issue`: a missing key, an empty
trimmed value or `-` all mean unset. -/
def opt_dash_value : Option Chars → Option Chars
  | none => none
  | some v =>
    let t := rust_trim v
    if t = [] then none else if t = str "-" then none else some t

/-- `parse_issue` from `src/issues.rs` (the source binds the parsed
frontmatter pair once; the pure recomputation here is equivalent). -/
def parse_issue (content : Chars) : Except Chars Issue := do
  let id ← require (parse_frontmatter content).1 (str "id") (str "Missing id")
  let title ← require (parse_frontmatter content).1 (str "title") (str "Missing title")
  let status ← issue_status_from_str
    (← require (parse_frontmatter content).1 (str "status") (str "Missing status"))
  let priority ← issue_priority_from_str
    (← require (parse_frontmatter content).1 (str "priority") (str "Missing priority"))
  let issue_type ← issue_type_from_str
    (← require (parse_frontmatter content).1 (str "type") (str "Missing type"))
  let source ← issue_source_from_str
    (← require (parse_frontmatter content).1 (str "source") (str "Missing source"))
  let created_at ← require (parse_frontmatter content).1 (str "created_at")
    (str "Missing created_at")
  let updated_at ← require (parse_frontmatter content).1 (str "updated_at")
    (str "Missing updated_at")
  let task := opt_dash_value (fm_get (parse_frontmatter content).1 (str "task"))
  let file := opt_dash_value (fm_get (parse_frontmatter content).1 (str "file"))
  let body := if rust_trim (parse_frontmatter content).2 = [] then none
    else some (rust_trim (parse_frontmatter content).2)
  return ⟨id, title, status, priority, task, issue_type, source,
    created_at, updated_at, file, body⟩

lemma except_bind_ok {ε α β : Type} (a : α) (f : α → Except ε β) :
    (Except.ok a >>= f) = f a := rfl

lemma except_bind_error {ε α β : Type} (e : ε) (f : α → Except ε β) :
    ((Except.error e : Except ε α) >>= f) = .error e := rfl

lemma require_ok {fm : List (Chars × Chars)} {k m v : Chars}
    (h : require fm k m = .ok v) : fm_get fm k = some v := by
  unfold require at h
  cases hg : fm_get fm k with
  | none => rw [hg] at h; cases h
  | some w => rw [hg] at h; cases h; rfl

lemma parse_issue_ok_shape : ∀ (content : Chars) (issue : Issue),
    parse_issue content = .ok issue →
    (∃ v, fm_get (parse_frontmatter content).1 (str "id") = some v) ∧
    (∃ v, fm_get (parse_frontmatter content).1 (str "title") = some v) ∧
    (∃ v, fm_get (parse_frontmatter content).1 (str "status") = some v) ∧
    (∃ v, fm_get (parse_frontmatter content).1 (str "priority") = some v) ∧
    (∃ v, fm_get (parse_frontmatter content).1 (str "type") = some v) ∧
    (∃ v, fm_get (parse_frontmatter content).1 (str "source") = some v) ∧
    (∃ v, fm_get (parse_frontmatter content).1 (str "created_at") = some v) ∧
    (∃ v, fm_get (parse_frontmatter content).1 (str "updated_at") = some v) ∧
    issue.task = opt_dash_value (fm_get (parse_frontmatter content).1 (str "task")) ∧
    issue.file = opt_dash_value (fm_get (parse_frontmatter content).1 (str "file")) := by
  intro content issue h
  unfold parse_issue at h
  cases hid : require (parse_frontmatter content).1 (str "id") (str "Missing id") with
  | error e => rw [hid, except_bind_error] at h; cases h
  | ok idv =>
  rw [hid, except_bind_ok] at h
  cases htit : require (parse_frontmatter content).1 (str "title") (str "Missing title") with
  | error e => rw [htit, except_bind_error] at h; cases h
  | ok titv =>
  rw [htit, except_bind_ok] at h
  cases hst : require (parse_frontmatter content).1 (str "status") (str "Missing status") with
  | error e => rw [hst, except_bind_error] at h; cases h
  | ok stv =>
  rw [hst, except_bind_ok] at h
  cases hst2 : issue_status_from_str stv with
  | error e => rw [hst2, except_bind_error] at h; cases h
  | ok st =>
  rw [hst2, except_bind_ok] at h
  cases hpr : require (parse_frontmatter content).1 (str "priority") (str "Missing priority") with
  | error e => rw [hpr, except_bind_error] at h; cases h
  | ok prv =>
  rw [hpr, except_bind_ok] at h
  cases hpr2 : issue_priority_from_str prv with
  | error e => rw [hpr2, except_bind_error] at h; cases h
  | ok pr =>
  rw [hpr2, except_bind_ok] at h
  cases hty : require (parse_frontmatter content).1 (str "type") (str "Missing type") with
  | error e => rw [hty, except_bind_error] at h; cases h
  | ok tyv =>
  rw [hty, except_bind_ok] at h
  cases hty2 : issue_type_from_str tyv with
  | error e => rw [hty2, except_bind_error] at h; cases h
  | ok ty =>
  rw [hty2, except_bind_ok] at h
  cases hso : require (parse_frontmatter content).1 (str "source") (str "Missing source") with
  | error e => rw [hso, except_bind_error] at h; cases h
  | ok sov =>
  rw [hso, except_bind_ok] at h
  cases hso2 : issue_source_from_str sov with
  | error e => rw [hso2, except_bind_error] at h; cases h
  | ok so =>
  rw [hso2, except_bind_ok] at h
  cases hca : require (parse_frontmatter content).1 (str "created_at")
      (str "Missing created_at") with
  | error e => rw [hca, except_bind_error] at h; cases h
  | ok cav =>
  rw [hca, except_bind_ok] at h
  cases hua : require (parse_frontmatter content).1 (str "updated_at")
      (str "Missing updated_at") with
  | error e => rw [hua, except_bind_error] at h; cases h
  | ok uav =>
  rw [hua, except_bind_ok] at h
  have hi : issue = ⟨idv, titv, st, pr,
      opt_dash_value (fm_get (parse_frontmatter content).1 (str "task")), ty, so,
      cav, uav, opt_dash_value (fm_get (parse_frontmatter content).1 (str "file")),
      if rust_trim (parse_frontmatter content).2 = [] then none
      else some (rust_trim (parse_frontmatter content).2)⟩ := by
    cases h; rfl
  subst hi
  exact ⟨⟨idv, require_ok hid⟩, ⟨titv, require_ok htit⟩, ⟨stv, require_ok hst⟩,
    ⟨prv, require_ok hpr⟩, ⟨tyv, require_ok hty⟩, ⟨sov, require_ok hso⟩,
    ⟨cav, require_ok hca⟩, ⟨uav, require_ok hua⟩, rfl, rfl⟩

/-- The concrete issue file of the C5 counterexample: all eight enforced
keys present, `task` and `file` absent. -/
def no_task_file_content : Chars :=
  str "---\nid: 1\ntitle: t\nstatus: open\npriority: P1\ntype: bug\nsource: manual\ncreated_at: c\nupdated_at: u\n---"

/-- C5 (counterexample): a frontmatter block with no `task` and no `file`
key parses successfully (task and file become `None`), so those two of the
claim's ten keys are not mandatory. -/
theorem parse_issue_missing_task_file_ok :
    fm_get (parse_frontmatter no_task_file_content).1 (str "task") = none ∧
    fm_get (parse_frontmatter no_task_file_content).1 (str "file") = none ∧
    parse_issue no_task_file_content =
      .ok ⟨str "1", str "t", .opened, .p1, none, .bug, .manual,
        str "c", str "u", none, none⟩ :=
  ⟨by decide, by decide, rfl⟩

/-- C5 (amended): `parse_issue` fails whenever any of the EIGHT keys `id`,
`title`, `status`, `priority`, `type`, `source`, `created_at`,
`updated_at` is absent from the frontmatter (a missing `id` yields exactly
the "Missing id" error); the `task` and `file` keys are optional — absent,
empty or `-` all parse to `None`. -/
theorem parse_issue_required_keys : ∀ content : Chars,
    (fm_get (parse_frontmatter content).1 (str "id") = none →
      parse_issue content = .error (str "Missing id")) ∧
    (fm_get (parse_frontmatter content).1 (str "title") = none →
      is_ok (parse_issue content) = false) ∧
    (fm_get (parse_frontmatter content).1 (str "status") = none →
      is_ok (parse_issue content) = false) ∧
    (fm_get (parse_frontmatter content).1 (str "priority") = none →
      is_ok (parse_issue content) = false) ∧
    (fm_get (parse_frontmatter content).1 (str "type") = none →
      is_ok (parse_issue content) = false) ∧
    (fm_get (parse_frontmatter content).1 (str "source") = none →
      is_ok (parse_issue content) = false) ∧
    (fm_get (parse_frontmatter content).1 (str "created_at") = none →
      is_ok (parse_issue content) = false) ∧
    (fm_get (parse_frontmatter content).1 (str "updated_at") = none →
      is_ok (parse_issue content) = false) ∧
    (∀ issue, parse_issue content = .ok issue →
      issue.task = opt_dash_value (fm_get (parse_frontmatter content).1 (str "task")) ∧
      issue.file = opt_dash_value (fm_get (parse_frontmatter content).1 (str "file"))) ∧
    (∀ v, rust_trim v = str "-" → opt_dash_value (some v) = none) ∧
    opt_dash_value none = none := by
  intro content
  have shape := parse_issue_ok_shape content
  have not_ok : ∀ k : Chars,
      (∀ issue, parse_issue content = .ok issue →
        ∃ v, fm_get (parse_frontmatter content).1 k = some v) →
      fm_get (parse_frontmatter content).1 k = none →
      is_ok (parse_issue content) = false := by
    intro k hk hmiss
    cases hp : parse_issue content with
    | error e => rfl
    | ok issue =>
      obtain ⟨v, hv⟩ := hk issue hp
      rw [hmiss] at hv
      cases hv
  refine ⟨?_, not_ok _ (fun i hp => (shape i hp).2.1), not_ok _ (fun i hp => (shape i hp).2.2.1),
    not_ok _ (fun i hp => (shape i hp).2.2.2.1), not_ok _ (fun i hp => (shape i hp).2.2.2.2.1),
    not_ok _ (fun i hp => (shape i hp).2.2.2.2.2.1),
    not_ok _ (fun i hp => (shape i hp).2.2.2.2.2.2.1),
    not_ok _ (fun i hp => (shape i hp).2.2.2.2.2.2.2.1),
    fun issue hp => ⟨(shape issue hp).2.2.2.2.2.2.2.2.1, (shape issue hp).2.2.2.2.2.2.2.2.2⟩,
    ?_, rfl⟩
  · intro hmiss
    unfold parse_issue
    rw [show require (parse_frontmatter content).1 (str "id") (str "Missing id") =
        .error (str "Missing id") by unfold require; rw [hmiss], except_bind_error]
  · intro v hv
    have hod : opt_dash_value (some v) =
        if rust_trim v = [] then none
        else if rust_trim v = str "-" then none else some (rust_trim v) := rfl
    rw [hod, hv, if_neg (by decide), if_pos rfl]

lemma dropWhile_idem {α : Type} (p : α → Bool) :
    ∀ l : List α, List.dropWhile p (List.dropWhile p l) = List.dropWhile p l := by
  intro l
  induction l with
  | nil => rfl
  | cons a t ih =>
    rw [List.dropWhile_cons]
    by_cases h : p a = true
    · rw [if_pos h]; exact ih
    · rw [if_neg h, List.dropWhile_cons, if_neg h]

lemma dropWhile_append_single {α : Type} (p : α → Bool) (c : α) (hc : p c = false) :
    ∀ l : List α, List.dropWhile p (l ++ [c]) = List.dropWhile p l ++ [c] := by
  intro l
  induction l with
  | nil => simp [List.dropWhile_cons, hc, List.dropWhile]
  | cons a t ih =>
    rw [List.cons_append, List.dropWhile_cons, List.dropWhile_cons]
    by_cases h : p a = true
    · rw [if_pos h, if_pos h]; exact ih
    · rw [if_neg h, if_neg h, List.cons_append]

lemma dropWhile_head_not {α : Type} (p : α → Bool) :
    ∀ (l : List α) (c : α), (List.dropWhile p l).head? = some c → p c = false := by
  intro l
  induction l with
  | nil => intro c h; cases h
  | cons a t ih =>
    intro c h
    rw [List.dropWhile_cons] at h
    by_cases ha : p a = true
    · rw [if_pos ha] at h; exact ih c h
    · rw [if_neg ha] at h
      cases h
      simpa using ha

lemma trim_left_ws_cons (c : Char) (l : Chars) (h : rust_is_whitespace c = true) :
    trim_left (c :: l) = trim_left l := by
  unfold trim_left
  rw [List.dropWhile_cons, if_pos h]

lemma trim_left_cons_neg (c : Char) (l : Chars) (h : rust_is_whitespace c = false) :
    trim_left (c :: l) = c :: l := by
  unfold trim_left
  rw [List.dropWhile_cons, if_neg (by simp [h])]

lemma trim_right_cons (c : Char) (l : Chars) (h : rust_is_whitespace c = false) :
    trim_right (c :: l) = c :: trim_right l := by
  unfold trim_right
  rw [List.reverse_cons, dropWhile_append_single rust_is_whitespace c h, List.reverse_append]
  rfl

lemma rust_trim_ws_cons (c : Char) (l : Chars) (h : rust_is_whitespace c = true) :
    rust_trim (c :: l) = rust_trim l := by
  unfold rust_trim
  rw [trim_left_ws_cons c l h]

lemma rust_trim_cons_head (c : Char) (l : Chars) (h : rust_is_whitespace c = false) :
    rust_trim (c :: l) = c :: trim_right l := by
  unfold rust_trim
  rw [trim_left_cons_neg c l h, trim_right_cons c l h]

lemma trim_left_idem (l : Chars) : trim_left (trim_left l) = trim_left l :=
  dropWhile_idem rust_is_whitespace l

lemma trim_right_idem (l : Chars) : trim_right (trim_right l) = trim_right l := by
  unfold trim_right
  rw [List.reverse_reverse, dropWhile_idem]

lemma trim_left_fix_shape : ∀ l : Chars, trim_left l = l →
    l = [] ∨ ∃ c t, l = c :: t ∧ rust_is_whitespace c = false := by
  intro l h
  cases l with
  | nil => exact Or.inl rfl
  | cons c t =>
    refine Or.inr ⟨c, t, rfl, ?_⟩
    cases hc : rust_is_whitespace c
    · rfl
    · rw [trim_left_ws_cons c t hc] at h
      have := congrArg List.length h
      have hlen : (trim_left t).length ≤ t.length := by
        unfold trim_left
        exact (List.dropWhile_sublist _).length_le
      simp at this
      omega

lemma rust_trim_idem (l : Chars) : rust_trim (rust_trim l) = rust_trim l := by
  unfold rust_trim
  rcases trim_left_fix_shape (trim_left l) (trim_left_idem l) with h | ⟨c, t, heq, hc⟩
  · rw [h]; rfl
  · rw [heq, trim_right_cons c t hc, trim_left_cons_neg c _ hc,
      trim_right_cons c _ hc, trim_right_idem]

lemma trim_right_getLast_not_ws (l : Chars) (c : Char)
    (h : (trim_right l).getLast? = some c) : rust_is_whitespace c = false := by
  unfold trim_right at h
  rw [List.getLast?_reverse] at h
  exact dropWhile_head_not _ _ _ h

lemma rust_trim_getLast_not_ws (l : Chars) (c : Char)
    (h : (rust_trim l).getLast? = some c) : rust_is_whitespace c = false :=
  trim_right_getLast_not_ws (trim_left l) c h

lemma strip_cr_of_no_cr (l : Chars) (h : '\r' ∉ l) : strip_cr l = l := by
  cases hg : l.getLast? with
  | none => simp [strip_cr, hg]
  | some c =>
    simp only [strip_cr, hg]
    rw [if_neg ?_]
    obtain ⟨ys, rfl⟩ := List.getLast?_eq_some_iff.mp hg
    intro hc
    subst hc
    exact h (by simp)

lemma trim_stable_strip_cr (l : Chars) (h : rust_trim l = l) : strip_cr l = l := by
  cases hg : l.getLast? with
  | none => simp [strip_cr, hg]
  | some c =>
    simp only [strip_cr, hg]
    rw [if_neg ?_]
    intro hc
    subst hc
    have := rust_trim_getLast_not_ws l '\r' (h.symm ▸ hg)
    simp [rust_is_whitespace] at this

lemma split_once_key : ∀ (k rest : Chars), ':' ∉ k →
    split_once ':' (k ++ ':' :: rest) = some (k, rest) := by
  intro k
  induction k with
  | nil => intro rest _; simp [split_once]
  | cons c k' ih =>
    intro rest hc
    have hcne : ¬ c = ':' := fun h => hc (h ▸ List.mem_cons_self _ _)
    rw [List.cons_append]
    unfold split_once
    rw [if_neg hcne, ih rest (fun hm => hc (List.mem_cons_of_mem _ hm))]

lemma split_newlines_shape : ∀ l : Chars, ∃ f fs, split_newlines l = f :: fs := by
  intro l
  cases l with
  | nil => exact ⟨[], [], rfl⟩
  | cons c rest =>
    unfold split_newlines
    by_cases h : c = '\n'
    · rw [if_pos h]; exact ⟨[], split_newlines rest, rfl⟩
    · rw [if_neg h]
      obtain ⟨f, fs, hf⟩ := split_newlines_shape rest
      rw [hf]
      exact ⟨c :: f, fs, rfl⟩

lemma split_newlines_ne_nil (l : Chars) : split_newlines l ≠ [] := by
  obtain ⟨f, fs, h⟩ := split_newlines_shape l
  rw [h]
  exact List.cons_ne_nil f fs

lemma split_newlines_append : ∀ (a r : Chars), '\n' ∉ a →
    split_newlines (a ++ '\n' :: r) = a :: split_newlines r := by
  intro a
  induction a with
  | nil => intro r _; simp [split_newlines]
  | cons c a' ih =>
    intro r hn
    have hcne : ¬ c = '\n' := fun h => hn (h ▸ List.mem_cons_self _ _)
    rw [List.cons_append]
    conv_lhs => simp only [split_newlines]
    rw [if_neg hcne, ih r (fun hm => hn (List.mem_cons_of_mem _ hm))]

lemma split_newlines_no_nl : ∀ b : Chars, '\n' ∉ b → split_newlines b = [b] := by
  intro b
  induction b with
  | nil => intro _; rfl
  | cons c b' ih =>
    intro hn
    have hcne : ¬ c = '\n' := fun h => hn (h ▸ List.mem_cons_self _ _)
    unfold split_newlines
    rw [if_neg hcne, ih (fun hm => hn (List.mem_cons_of_mem _ hm))]

lemma split_newlines_singleton_nil : ∀ l : Chars, split_newlines l = [[]] → l = [] := by
  intro l h
  cases l with
  | nil => rfl
  | cons c rest =>
    exfalso
    unfold split_newlines at h
    by_cases hc : c = '\n'
    · rw [if_pos hc] at h
      have : split_newlines rest = [] := by injection h
      exact split_newlines_ne_nil rest this
    · rw [if_neg hc] at h
      obtain ⟨f, fs, hf⟩ := split_newlines_shape rest
      rw [hf] at h
      have : c :: f = [] := by injection h
      cases this

lemma rust_lines_no_nl (b : Chars) (hn : '\n' ∉ b) (hb : b ≠ []) :
    rust_lines b = [b] := by
  unfold rust_lines
  rw [if_neg hb, split_newlines_no_nl b hn]
  simp [hb]

lemma rust_lines_cons (a r : Chars) (hnl : '\n' ∉ a) (hcr : strip_cr a = a) :
    rust_lines (a ++ '\n' :: r) = a :: rust_lines r := by
  have h1 : split_newlines (a ++ '\n' :: r) = a :: split_newlines r :=
    split_newlines_append a r hnl
  obtain ⟨f, fs', hfs⟩ := split_newlines_shape r
  by_cases hr : r = []
  · subst hr
    simp only [split_newlines] at hfs
    unfold rust_lines
    rw [if_neg (by simp), h1]
    simp only [split_newlines]
    simp [hcr]
  · unfold rust_lines
    rw [if_neg (by simp), if_neg hr, h1, hfs]
    simp only [List.getLast?_cons_cons, List.dropLast_cons₂, List.map_cons, hcr]
    by_cases hlast : (f :: fs').getLast?.getD [] = []
    · rw [if_pos hlast, if_pos hlast]
    · rw [if_neg hlast, if_neg hlast, List.cons_append]

lemma join_nl_cons (l : Chars) (rest : List Chars) (h : rest ≠ []) :
    join_nl (l :: rest) = l ++ '\n' :: join_nl rest := by
  cases rest with
  | nil => exact absurd rfl h
  | cons m ms => rfl

lemma join_nl_eq_foldr : ∀ (ls : List Chars) (lastL : Chars),
    join_nl (ls ++ [lastL]) = List.foldr (fun l acc => l ++ '\n' :: acc) lastL ls := by
  intro ls
  induction ls with
  | nil => intro lastL; rfl
  | cons l ls' ih =>
    intro lastL
    rw [List.cons_append, join_nl_cons l (ls' ++ [lastL]) (by simp), ih, List.foldr_cons]

lemma rust_lines_nil_iff : ∀ b : Chars, rust_lines b = [] → b = [] := by
  intro b h
  by_contra hb
  unfold rust_lines at h
  rw [if_neg hb] at h
  obtain ⟨f, fs, hfs⟩ := split_newlines_shape b
  rw [hfs] at h
  cases fs with
  | nil =>
    simp only [List.getLast?_singleton, Option.getD_some, List.dropLast_single,
      List.map_nil] at h
    by_cases hf : f = []
    · exact hb (split_newlines_singleton_nil b (hf ▸ hfs))
    · rw [if_neg hf] at h
      simp at h
  | cons f2 fs' =>
    by_cases hlast : (f :: f2 :: fs').getLast?.getD [] = []
    · rw [if_pos hlast] at h
      simp [List.dropLast_cons₂] at h
    · rw [if_neg hlast] at h
      simp at h

lemma rust_lines_join_prefix : ∀ (ls : List Chars) (tailC : Chars),
    (∀ l ∈ ls, '\n' ∉ l ∧ strip_cr l = l) →
    rust_lines (List.foldr (fun l acc => l ++ '\n' :: acc) tailC ls) =
      ls ++ rust_lines tailC := by
  intro ls
  induction ls with
  | nil => intro tailC _; rfl
  | cons l ls' ih =>
    intro tailC hcond
    rw [List.foldr_cons,
      rust_lines_cons _ _ (hcond l (List.mem_cons_self _ _)).1
        (hcond l (List.mem_cons_self _ _)).2,
      ih tailC (fun m hm => hcond m (List.mem_cons_of_mem _ hm))]
    rfl

lemma exists_split_first_nl : ∀ b : Chars, '\n' ∈ b →
    ∃ a r, b = a ++ '\n' :: r ∧ '\n' ∉ a := by
  intro b
  induction b with
  | nil => intro h; cases h
  | cons c b' ih =>
    intro h
    by_cases hc : c = '\n'
    · exact ⟨[], b', by rw [hc]; rfl, by simp⟩
    · have : '\n' ∈ b' := by
        rcases List.mem_cons.mp h with h' | h'
        · exact absurd h'.symm hc
        · exact h'
      obtain ⟨a, r, heq, hna⟩ := ih this
      exact ⟨c :: a, r, by rw [heq]; rfl,
        fun hm => by rcases List.mem_cons.mp hm with h' | h'
                     · exact hc h'.symm
                     · exact hna h'⟩

lemma join_rust_lines_aux : ∀ (n : Nat) (b : Chars), b.length ≤ n → '\r' ∉ b → b ≠ [] →
    b.getLast? ≠ some '\n' → join_nl (rust_lines b) = b := by
  intro n
  induction n with
  | zero =>
    intro b hlen _ hb _
    cases b with
    | nil => exact absurd rfl hb
    | cons c t => simp at hlen
  | succ n ih =>
    intro b hlen hcr hb hlast
    by_cases hnl : '\n' ∈ b
    · obtain ⟨a, r, rfl, hna⟩ := exists_split_first_nl b hnl
      have hr_ne : r ≠ [] := by
        intro hr
        subst hr
        exact hlast (List.getLast?_concat a)
      have hcr_a : '\r' ∉ a := fun hm => hcr (List.mem_append.mpr (Or.inl hm))
      have hcr_r : '\r' ∉ r := fun hm =>
        hcr (List.mem_append.mpr (Or.inr (List.mem_cons_of_mem _ hm)))
      have hlast_r : r.getLast? ≠ some '\n' := by
        intro hg
        apply hlast
        rw [List.getLast?_append]
        cases hr : r.getLast? with
        | none => exact absurd (List.getLast?_eq_none_iff.mp hr) hr_ne
        | some x =>
          rw [hr] at hg
          rw [List.getLast?_cons, hr]
          simpa using hg
      have hlen_r : r.length ≤ n := by
        have := congrArg List.length (rfl : a ++ '\n' :: r = a ++ '\n' :: r)
        simp only [List.length_append, List.length_cons] at hlen ⊢
        omega
      rw [rust_lines_cons a r hna (strip_cr_of_no_cr a hcr_a),
        join_nl_cons a (rust_lines r) (fun h => hr_ne (rust_lines_nil_iff r h)),
        ih r hlen_r hcr_r hr_ne hlast_r]
    · rw [rust_lines_no_nl b hnl hb]
      rfl

lemma join_rust_lines (b : Chars) (hcr : '\r' ∉ b) (hb : b ≠ [])
    (hlast : b.getLast? ≠ some '\n') : join_nl (rust_lines b) = b :=
  join_rust_lines_aux b.length b (le_refl _) hcr hb hlast

lemma parse_fm_lines_kv (c : Char) (k' v : Chars) (rest : List Chars)
    (hws : rust_is_whitespace c = false) (hdash : c ≠ '-')
    (hcol : ':' ∉ (c :: k')) (hv : rust_trim v = v) :
    parse_fm_lines (((c :: k') ++ ':' :: ' ' :: v) :: rest) =
      ((rust_trim (c :: k'), v) :: (parse_fm_lines rest).1, (parse_fm_lines rest).2) := by
  have htrim : rust_trim ((c :: k') ++ ':' :: ' ' :: v) =
      c :: trim_right (k' ++ ':' :: ' ' :: v) := by
    rw [List.cons_append]
    exact rust_trim_cons_head c _ hws
  have hne1 : rust_trim ((c :: k') ++ ':' :: ' ' :: v) ≠ str "---" := by
    rw [htrim]
    intro h
    have hh := congrArg List.head? h
    rw [show List.head? (str "---") = some '-' from rfl] at hh
    simp only [List.head?_cons, Option.some.injEq] at hh
    exact hdash hh
  have hne2 : rust_trim ((c :: k') ++ ':' :: ' ' :: v) ≠ [] := by
    rw [htrim]
    exact List.cons_ne_nil _ _
  conv_lhs => simp only [parse_fm_lines]
  rw [if_neg hne1, if_neg hne2, split_once_key (c :: k') (' ' :: v) hcol]
  simp only []
  rw [rust_trim_ws_cons ' ' v (by decide), hv]

lemma parse_fm_lines_term (rest : List Chars) :
    parse_fm_lines (str "---" :: rest) = ([], rest) := by
  conv_lhs => simp only [parse_fm_lines]
  rw [if_pos (by decide)]

lemma fm_get_cons (k v : Chars) (fm : List (Chars × Chars)) (key : Chars) :
    fm_get ((k, v) :: fm) key =
      match fm_get fm key with
      | some w => some w
      | none => if k = key then some v else none := by
  unfold fm_get
  rw [List.reverse_cons, List.find?_append]
  cases hf : List.find? (fun kv => decide (kv.1 = key)) fm.reverse with
  | some kv => simp [Option.or]
  | none =>
    simp only [Option.or]
    by_cases hk : k = key
    · simp [List.find?, hk]
    · simp [List.find?, hk]

lemma issue_status_roundtrip (s : IssueStatus) :
    issue_status_from_str (issue_status_as_str s) = .ok s := by
  cases s <;> rfl

lemma issue_priority_roundtrip (p : IssuePriority) :
    issue_priority_from_str (issue_priority_as_str p) = .ok p := by
  cases p <;> rfl

lemma issue_type_roundtrip (t : IssueType) :
    issue_type_from_str (issue_type_as_str t) = .ok t := by
  cases t <;> rfl

lemma issue_source_roundtrip (s : IssueSource) :
    issue_source_from_str (issue_source_as_str s) = .ok s := by
  cases s <;> rfl

lemma issue_status_as_str_clean (s : IssueStatus) :
    '\n' ∉ issue_status_as_str s ∧ rust_trim (issue_status_as_str s) = issue_status_as_str s := by
  cases s <;> exact ⟨by decide, by decide⟩

lemma issue_priority_as_str_clean (p : IssuePriority) :
    '\n' ∉ issue_priority_as_str p ∧
    rust_trim (issue_priority_as_str p) = issue_priority_as_str p := by
  cases p <;> exact ⟨by decide, by decide⟩

lemma issue_type_as_str_clean (t : IssueType) :
    '\n' ∉ issue_type_as_str t ∧ rust_trim (issue_type_as_str t) = issue_type_as_str t := by
  cases t <;> exact ⟨by decide, by decide⟩

lemma issue_source_as_str_clean (s : IssueSource) :
    '\n' ∉ issue_source_as_str s ∧
    rust_trim (issue_source_as_str s) = issue_source_as_str s := by
  cases s <;> exact ⟨by decide, by decide⟩

/-- A scalar frontmatter value that survives the round trip: trim-stable
and single-line. -/
def field_ok (v : Chars) : Prop := rust_trim v = v ∧ '\n' ∉ v

/-- An optional `task`/`file` value that survives the round trip: when
present, trim-stable, single-line, nonempty and not the unset marker `-`. -/
def opt_field_ok : Option Chars → Prop
  | none => True
  | some v => rust_trim v = v ∧ '\n' ∉ v ∧ v ≠ [] ∧ v ≠ str "-"

/-- A body that survives the round trip: no carriage returns (Rust's
`lines` strips a `\r` before each `\n`, so a CRLF body would come back
changed). -/
def body_ok : Option Chars → Prop
  | none => True
  | some b => '\r' ∉ b

/-- The well-formedness under which `render_issue` then `parse_issue`
reproduces an issue. -/
def issue_wf (i : Issue) : Prop :=
  field_ok i.id ∧ field_ok i.title ∧ field_ok i.created_at ∧ field_ok i.updated_at ∧
  opt_field_ok i.task ∧ opt_field_ok i.file ∧ body_ok i.body
lemma parse_fm_kv_id (v : Chars) (hv : rust_trim v = v) (rest : List Chars) :
    parse_fm_lines ((str "id: " ++ v) :: rest) =
      ((str "id", v) :: (parse_fm_lines rest).1, (parse_fm_lines rest).2) := by
  have h := parse_fm_lines_kv 'i' (str "d") v rest (by decide) (by decide) (by decide) hv
  calc parse_fm_lines ((str "id: " ++ v) :: rest)
      = parse_fm_lines ((('i' :: str "d") ++ ':' :: ' ' :: v) :: rest) := rfl
    _ = ((rust_trim ('i' :: str "d"), v) :: (parse_fm_lines rest).1,
        (parse_fm_lines rest).2) := h
    _ = ((str "id", v) :: (parse_fm_lines rest).1, (parse_fm_lines rest).2) := by
        rw [show rust_trim ('i' :: str "d") = str "id" from by decide]

lemma parse_fm_kv_title (v : Chars) (hv : rust_trim v = v) (rest : List Chars) :
    parse_fm_lines ((str "title: " ++ v) :: rest) =
      ((str "title", v) :: (parse_fm_lines rest).1, (parse_fm_lines rest).2) := by
  have h := parse_fm_lines_kv 't' (str "itle") v rest (by decide) (by decide) (by decide) hv
  calc parse_fm_lines ((str "title: " ++ v) :: rest)
      = parse_fm_lines ((('t' :: str "itle") ++ ':' :: ' ' :: v) :: rest) := rfl
    _ = ((rust_trim ('t' :: str "itle"), v) :: (parse_fm_lines rest).1,
        (parse_fm_lines rest).2) := h
    _ = ((str "title", v) :: (parse_fm_lines rest).1, (parse_fm_lines rest).2) := by
        rw [show rust_trim ('t' :: str "itle") = str "title" from by decide]

lemma parse_fm_kv_status (v : Chars) (hv : rust_trim v = v) (rest : List Chars) :
    parse_fm_lines ((str "status: " ++ v) :: rest) =
      ((str "status", v) :: (parse_fm_lines rest).1, (parse_fm_lines rest).2) := by
  have h := parse_fm_lines_kv 's' (str "tatus") v rest (by decide) (by decide) (by decide) hv
  calc parse_fm_lines ((str "status: " ++ v) :: rest)
      = parse_fm_lines ((('s' :: str "tatus") ++ ':' :: ' ' :: v) :: rest) := rfl
    _ = ((rust_trim ('s' :: str "tatus"), v) :: (parse_fm_lines rest).1,
        (parse_fm_lines rest).2) := h
    _ = ((str "status", v) :: (parse_fm_lines rest).1, (parse_fm_lines rest).2) := by
        rw [show rust_trim ('s' :: str "tatus") = str "status" from by decide]

lemma parse_fm_kv_priority (v : Chars) (hv : rust_trim v = v) (rest : List Chars) :
    parse_fm_lines ((str "priority: " ++ v) :: rest) =
      ((str "priority", v) :: (parse_fm_lines rest).1, (parse_fm_lines rest).2) := by
  have h := parse_fm_lines_kv 'p' (str "riority") v rest (by decide) (by decide) (by decide) hv
  calc parse_fm_lines ((str "priority: " ++ v) :: rest)
      = parse_fm_lines ((('p' :: str "riority") ++ ':' :: ' ' :: v) :: rest) := rfl
    _ = ((rust_trim ('p' :: str "riority"), v) :: (parse_fm_lines rest).1,
        (parse_fm_lines rest).2) := h
    _ = ((str "priority", v) :: (parse_fm_lines rest).1, (parse_fm_lines rest).2) := by
        rw [show rust_trim ('p' :: str "riority") = str "priority" from by decide]

lemma parse_fm_kv_task (v : Chars) (hv : rust_trim v = v) (rest : List Chars) :
    parse_fm_lines ((str "task: " ++ v) :: rest) =
      ((str "task", v) :: (parse_fm_lines rest).1, (parse_fm_lines rest).2) := by
  have h := parse_fm_lines_kv 't' (str "ask") v rest (by decide) (by decide) (by decide) hv
  calc parse_fm_lines ((str "task: " ++ v) :: rest)
      = parse_fm_lines ((('t' :: str "ask") ++ ':' :: ' ' :: v) :: rest) := rfl
    _ = ((rust_trim ('t' :: str "ask"), v) :: (parse_fm_lines rest).1,
        (parse_fm_lines rest).2) := h
    _ = ((str "task", v) :: (parse_fm_lines rest).1, (parse_fm_lines rest).2) := by
        rw [show rust_trim ('t' :: str "ask") = str "task" from by decide]

lemma parse_fm_kv_type (v : Chars) (hv : rust_trim v = v) (rest : List Chars) :
    parse_fm_lines ((str "type: " ++ v) :: rest) =
      ((str "type", v) :: (parse_fm_lines rest).1, (parse_fm_lines rest).2) := by
  have h := parse_fm_lines_kv 't' (str "ype") v rest (by decide) (by decide) (by decide) hv
  calc parse_fm_lines ((str "type: " ++ v) :: rest)
      = parse_fm_lines ((('t' :: str "ype") ++ ':' :: ' ' :: v) :: rest) := rfl
    _ = ((rust_trim ('t' :: str "ype"), v) :: (parse_fm_lines rest).1,
        (parse_fm_lines rest).2) := h
    _ = ((str "type", v) :: (parse_fm_lines rest).1, (parse_fm_lines rest).2) := by
        rw [show rust_trim ('t' :: str "ype") = str "type" from by decide]

lemma parse_fm_kv_source (v : Chars) (hv : rust_trim v = v) (rest : List Chars) :
    parse_fm_lines ((str "source: " ++ v) :: rest) =
      ((str "source", v) :: (parse_fm_lines rest).1, (parse_fm_lines rest).2) := by
  have h := parse_fm_lines_kv 's' (str "ource") v rest (by decide) (by decide) (by decide) hv
  calc parse_fm_lines ((str "source: " ++ v) :: rest)
      = parse_fm_lines ((('s' :: str "ource") ++ ':' :: ' ' :: v) :: rest) := rfl
    _ = ((rust_trim ('s' :: str "ource"), v) :: (parse_fm_lines rest).1,
        (parse_fm_lines rest).2) := h
    _ = ((str "source", v) :: (parse_fm_lines rest).1, (parse_fm_lines rest).2) := by
        rw [show rust_trim ('s' :: str "ource") = str "source" from by decide]

lemma parse_fm_kv_created_at (v : Chars) (hv : rust_trim v = v) (rest : List Chars) :
    parse_fm_lines ((str "created_at: " ++ v) :: rest) =
      ((str "created_at", v) :: (parse_fm_lines rest).1, (parse_fm_lines rest).2) := by
  have h := parse_fm_lines_kv 'c' (str "reated_at") v rest (by decide) (by decide) (by decide) hv
  calc parse_fm_lines ((str "created_at: " ++ v) :: rest)
      = parse_fm_lines ((('c' :: str "reated_at") ++ ':' :: ' ' :: v) :: rest) := rfl
    _ = ((rust_trim ('c' :: str "reated_at"), v) :: (parse_fm_lines rest).1,
        (parse_fm_lines rest).2) := h
    _ = ((str "created_at", v) :: (parse_fm_lines rest).1, (parse_fm_lines rest).2) := by
        rw [show rust_trim ('c' :: str "reated_at") = str "created_at" from by decide]

lemma parse_fm_kv_updated_at (v : Chars) (hv : rust_trim v = v) (rest : List Chars) :
    parse_fm_lines ((str "updated_at: " ++ v) :: rest) =
      ((str "updated_at", v) :: (parse_fm_lines rest).1, (parse_fm_lines rest).2) := by
  have h := parse_fm_lines_kv 'u' (str "pdated_at") v rest (by decide) (by decide) (by decide) hv
  calc parse_fm_lines ((str "updated_at: " ++ v) :: rest)
      = parse_fm_lines ((('u' :: str "pdated_at") ++ ':' :: ' ' :: v) :: rest) := rfl
    _ = ((rust_trim ('u' :: str "pdated_at"), v) :: (parse_fm_lines rest).1,
        (parse_fm_lines rest).2) := h
    _ = ((str "updated_at", v) :: (parse_fm_lines rest).1, (parse_fm_lines rest).2) := by
        rw [show rust_trim ('u' :: str "pdated_at") = str "updated_at" from by decide]

lemma parse_fm_kv_file (v : Chars) (hv : rust_trim v = v) (rest : List Chars) :
    parse_fm_lines ((str "file: " ++ v) :: rest) =
      ((str "file", v) :: (parse_fm_lines rest).1, (parse_fm_lines rest).2) := by
  have h := parse_fm_lines_kv 'f' (str "ile") v rest (by decide) (by decide) (by decide) hv
  calc parse_fm_lines ((str "file: " ++ v) :: rest)
      = parse_fm_lines ((('f' :: str "ile") ++ ':' :: ' ' :: v) :: rest) := rfl
    _ = ((rust_trim ('f' :: str "ile"), v) :: (parse_fm_lines rest).1,
        (parse_fm_lines rest).2) := h
    _ = ((str "file", v) :: (parse_fm_lines rest).1, (parse_fm_lines rest).2) := by
        rw [show rust_trim ('f' :: str "ile") = str "file" from by decide]

lemma fm_get_nil (key : Chars) : fm_get [] key = none := rfl

lemma strip_cr_append_stable (pre v : Chars) (hpre : pre.getLast? ≠ some '\r')
    (hv : rust_trim v = v) : strip_cr (pre ++ v) = pre ++ v := by
  cases hg : (pre ++ v).getLast? with
  | none => simp [strip_cr, hg]
  | some c =>
    simp only [strip_cr, hg]
    rw [if_neg ?_]
    intro hc
    subst hc
    rw [List.getLast?_append] at hg
    cases hvl : v.getLast? with
    | none => rw [hvl] at hg; simp only [Option.or] at hg; exact hpre hg
    | some d =>
      rw [hvl] at hg
      simp only [Option.or, Option.some.injEq] at hg
      subst hg
      have := rust_trim_getLast_not_ws v '\r' (hv.symm ▸ hvl)
      simp [rust_is_whitespace] at this

lemma rust_trim_subset (l : Chars) : ∀ c, c ∈ rust_trim l → c ∈ l := by
  intro c hc
  unfold rust_trim trim_right trim_left at hc
  rw [List.mem_reverse] at hc
  have h1 := (List.dropWhile_sublist (l := (List.dropWhile rust_is_whitespace l).reverse)
    (p := rust_is_whitespace)).subset hc
  rw [List.mem_reverse] at h1
  exact (List.dropWhile_sublist (l := l) (p := rust_is_whitespace)).subset h1

lemma opt_dash_roundtrip (o : Option Chars) (h : opt_field_ok o) :
    opt_dash_value (some (o.getD (str "-"))) = o := by
  cases o with
  | none => rfl
  | some v =>
    obtain ⟨hvt, -, hvne, hvd⟩ := h
    show (let t := rust_trim v;
      if t = [] then none else if t = str "-" then none else some t) = some v
    simp only [hvt]
    rw [if_neg hvne, if_neg hvd]

/-- The eleven frontmatter-opening lines `render_issue` emits (the opening
`---` and the ten `key: value` lines). -/
def render_fm_lines (i : Issue) : List Chars :=
  [str "---",
   str "id: " ++ i.id,
   str "title: " ++ i.title,
   str "status: " ++ issue_status_as_str i.status,
   str "priority: " ++ issue_priority_as_str i.priority,
   str "task: " ++ i.task.getD (str "-"),
   str "type: " ++ issue_type_as_str i.issue_type,
   str "source: " ++ issue_source_as_str i.source,
   str "created_at: " ++ i.created_at,
   str "updated_at: " ++ i.updated_at,
   str "file: " ++ i.file.getD (str "-")]

/-- The key/value pairs those lines parse back to. -/
def render_fm_pairs (i : Issue) : List (Chars × Chars) :=
  [(str "id", i.id), (str "title", i.title),
   (str "status", issue_status_as_str i.status),
   (str "priority", issue_priority_as_str i.priority),
   (str "task", i.task.getD (str "-")),
   (str "type", issue_type_as_str i.issue_type),
   (str "source", issue_source_as_str i.source),
   (str "created_at", i.created_at),
   (str "updated_at", i.updated_at),
   (str "file", i.file.getD (str "-"))]

lemma render_issue_eq (i : Issue) :
    render_issue i =
      (match i.body with
       | some b =>
         if rust_trim b ≠ [] then
           join_nl ((render_fm_lines i ++ [str "---"] ++ [[]]) ++ [rust_trim b])
         else join_nl (render_fm_lines i ++ [str "---"])
       | none => join_nl (render_fm_lines i ++ [str "---"])) := by
  cases hb : i.body with
  | none =>
    simp only [render_issue, render_fm_lines, hb]
    simp
  | some b =>
    simp only [render_issue, render_fm_lines, hb]
    by_cases hbt : rust_trim b ≠ []
    · rw [if_pos hbt, if_pos hbt]
      simp
    · rw [if_neg hbt, if_neg hbt]
      simp

lemma parse_frontmatter_eq (content : Chars) (first : Chars) (rest : List Chars)
    (h : rust_lines content = first :: rest) (hfirst : rust_trim first = str "---") :
    parse_frontmatter content =
      ((parse_fm_lines rest).1, join_nl (parse_fm_lines rest).2) := by
  simp only [parse_frontmatter, h]
  rw [if_pos hfirst]

lemma parse_fm_render (i : Issue) (tailLines : List Chars)
    (hid : rust_trim i.id = i.id) (htit : rust_trim i.title = i.title)
    (hca : rust_trim i.created_at = i.created_at)
    (hua : rust_trim i.updated_at = i.updated_at)
    (htv : rust_trim (i.task.getD (str "-")) = i.task.getD (str "-"))
    (hfv : rust_trim (i.file.getD (str "-")) = i.file.getD (str "-")) :
    parse_fm_lines
      ((str "id: " ++ i.id) :: (str "title: " ++ i.title) ::
       (str "status: " ++ issue_status_as_str i.status) ::
       (str "priority: " ++ issue_priority_as_str i.priority) ::
       (str "task: " ++ i.task.getD (str "-")) ::
       (str "type: " ++ issue_type_as_str i.issue_type) ::
       (str "source: " ++ issue_source_as_str i.source) ::
       (str "created_at: " ++ i.created_at) ::
       (str "updated_at: " ++ i.updated_at) ::
       (str "file: " ++ i.file.getD (str "-")) :: str "---" :: tailLines) =
      (render_fm_pairs i, tailLines) := by
  rw [parse_fm_kv_id _ hid, parse_fm_kv_title _ htit,
    parse_fm_kv_status _ (issue_status_as_str_clean i.status).2,
    parse_fm_kv_priority _ (issue_priority_as_str_clean i.priority).2,
    parse_fm_kv_task _ htv,
    parse_fm_kv_type _ (issue_type_as_str_clean i.issue_type).2,
    parse_fm_kv_source _ (issue_source_as_str_clean i.source).2,
    parse_fm_kv_created_at _ hca, parse_fm_kv_updated_at _ hua,
    parse_fm_kv_file _ hfv, parse_fm_lines_term]
  rfl

lemma render_fm_lines_clean (i : Issue)
    (hid : field_ok i.id) (htit : field_ok i.title) (hca : field_ok i.created_at)
    (hua : field_ok i.updated_at)
    (htv : rust_trim (i.task.getD (str "-")) = i.task.getD (str "-") ∧
      '\n' ∉ i.task.getD (str "-"))
    (hfv : rust_trim (i.file.getD (str "-")) = i.file.getD (str "-") ∧
      '\n' ∉ i.file.getD (str "-")) :
    ∀ l ∈ render_fm_lines i, '\n' ∉ l ∧ strip_cr l = l := by
  have line : ∀ (pre v : Chars), '\n' ∉ pre → pre.getLast? ≠ some '\r' →
      rust_trim v = v → '\n' ∉ v → '\n' ∉ pre ++ v ∧ strip_cr (pre ++ v) = pre ++ v := by
    intro pre v h1 h2 h3 h4
    refine ⟨?_, strip_cr_append_stable pre v h2 h3⟩
    intro hm
    rcases List.mem_append.mp hm with h | h
    · exact h1 h
    · exact h4 h
  intro l hl
  simp only [render_fm_lines, List.mem_cons, List.not_mem_nil, or_false] at hl
  rcases hl with rfl | rfl | rfl | rfl | rfl | rfl | rfl | rfl | rfl | rfl | rfl
  · exact ⟨by decide, by decide⟩
  · exact line _ _ (by decide) (by decide) hid.1 hid.2
  · exact line _ _ (by decide) (by decide) htit.1 htit.2
  · exact line _ _ (by decide) (by decide) (issue_status_as_str_clean i.status).2
      (issue_status_as_str_clean i.status).1
  · exact line _ _ (by decide) (by decide) (issue_priority_as_str_clean i.priority).2
      (issue_priority_as_str_clean i.priority).1
  · exact line _ _ (by decide) (by decide) htv.1 htv.2
  · exact line _ _ (by decide) (by decide) (issue_type_as_str_clean i.issue_type).2
      (issue_type_as_str_clean i.issue_type).1
  · exact line _ _ (by decide) (by decide) (issue_source_as_str_clean i.source).2
      (issue_source_as_str_clean i.source).1
  · exact line _ _ (by decide) (by decide) hca.1 hca.2
  · exact line _ _ (by decide) (by decide) hua.1 hua.2
  · exact line _ _ (by decide) (by decide) hfv.1 hfv.2

lemma fm_get_render (i : Issue) :
    fm_get (render_fm_pairs i) (str "id") = some i.id ∧
    fm_get (render_fm_pairs i) (str "title") = some i.title ∧
    fm_get (render_fm_pairs i) (str "status") = some (issue_status_as_str i.status) ∧
    fm_get (render_fm_pairs i) (str "priority") = some (issue_priority_as_str i.priority) ∧
    fm_get (render_fm_pairs i) (str "task") = some (i.task.getD (str "-")) ∧
    fm_get (render_fm_pairs i) (str "type") = some (issue_type_as_str i.issue_type) ∧
    fm_get (render_fm_pairs i) (str "source") = some (issue_source_as_str i.source) ∧
    fm_get (render_fm_pairs i) (str "created_at") = some i.created_at ∧
    fm_get (render_fm_pairs i) (str "updated_at") = some i.updated_at ∧
    fm_get (render_fm_pairs i) (str "file") = some (i.file.getD (str "-")) := by
  refine ⟨?_, ?_, ?_, ?_, ?_, ?_, ?_, ?_, ?_, ?_⟩ <;>
    simp +decide [render_fm_pairs, fm_get_cons, fm_get_nil]

lemma require_of_get {fm : List (Chars × Chars)} {k v : Chars}
    (h : fm_get fm k = some v) : ∀ m, require fm k m = .ok v := by
  intro m
  unfold require
  rw [h]

lemma parse_issue_render_of_pf (i : Issue) (bodyChars : Chars)
    (htask : opt_field_ok i.task) (hfile : opt_field_ok i.file)
    (hpf : parse_frontmatter (render_issue i) = (render_fm_pairs i, bodyChars)) :
    parse_issue (render_issue i) =
      .ok { i with body := if rust_trim bodyChars = [] then none
                           else some (rust_trim bodyChars) } := by
  have hpf1 : (parse_frontmatter (render_issue i)).1 = render_fm_pairs i := by rw [hpf]
  have hpf2 : (parse_frontmatter (render_issue i)).2 = bodyChars := by rw [hpf]
  obtain ⟨hid, htit, hst, hpr, htk, hty, hsrc, hca, hua, hfl⟩ := fm_get_render i
  unfold parse_issue
  rw [hpf1, hpf2]
  simp only [require_of_get hid, require_of_get htit, require_of_get hst,
    require_of_get hpr, require_of_get hty, require_of_get hsrc,
    require_of_get hca, require_of_get hua,
    issue_status_roundtrip, issue_priority_roundtrip, issue_type_roundtrip,
    issue_source_roundtrip, except_bind_ok, htk, hfl,
    opt_dash_roundtrip i.task htask, opt_dash_roundtrip i.file hfile]
  rfl

/-- C4: render/parse round trip. CORRECTED: the claim's "for every Issue
value" fails — `task = Some("-")` renders as the unset marker `-` and
parses back to `None` (see the counterexample), and non-trim-stable or
multi-line scalar fields, or CRLF bodies, also come back changed. For
WELL-FORMED issues (trim-stable single-line scalar fields; `task`/`file`
when present also nonempty and not `-`; body free of carriage returns)
`parse_issue (render_issue i)` succeeds, reproduces id, title, status,
priority, task, type, source, created_at, updated_at and file, and yields
a body equal to the trimmed original (absent or whitespace-only body
round-trips to `None`). -/
theorem render_parse_roundtrip (i : Issue) (h : issue_wf i) :
    parse_issue (render_issue i) =
      .ok { i with
            body := i.body.bind
              (fun b => if rust_trim b = [] then none else some (rust_trim b)) } := by
  obtain ⟨hid, htit, hca, hua, htask, hfile, hbody⟩ := h
  have htv : rust_trim (i.task.getD (str "-")) = i.task.getD (str "-") ∧
      '\n' ∉ i.task.getD (str "-") := by
    cases ht : i.task with
    | none => exact ⟨by decide, by decide⟩
    | some v =>
      rw [ht] at htask
      exact ⟨htask.1, htask.2.1⟩
  have hfv : rust_trim (i.file.getD (str "-")) = i.file.getD (str "-") ∧
      '\n' ∉ i.file.getD (str "-") := by
    cases hf : i.file with
    | none => exact ⟨by decide, by decide⟩
    | some v =>
      rw [hf] at hfile
      exact ⟨hfile.1, hfile.2.1⟩
  have hclean := render_fm_lines_clean i hid htit hca hua htv hfv
  have hnobody : render_issue i = join_nl (render_fm_lines i ++ [str "---"]) →
      parse_issue (render_issue i) = .ok { i with body := none } := by
    intro hre
    have h1 : rust_lines (render_issue i) = str "---" ::
        ((str "id: " ++ i.id) :: (str "title: " ++ i.title) ::
         (str "status: " ++ issue_status_as_str i.status) ::
         (str "priority: " ++ issue_priority_as_str i.priority) ::
         (str "task: " ++ i.task.getD (str "-")) ::
         (str "type: " ++ issue_type_as_str i.issue_type) ::
         (str "source: " ++ issue_source_as_str i.source) ::
         (str "created_at: " ++ i.created_at) ::
         (str "updated_at: " ++ i.updated_at) ::
         (str "file: " ++ i.file.getD (str "-")) :: str "---" :: []) := by
      rw [hre, join_nl_eq_foldr, rust_lines_join_prefix _ _ hclean,
        show rust_lines (str "---") = [str "---"] from by decide]
      simp only [render_fm_lines, List.cons_append, List.nil_append]
    have hpf := parse_frontmatter_eq _ _ _ h1 (by decide)
    rw [parse_fm_render i [] hid.1 htit.1 hca.1 hua.1 htv.1 hfv.1] at hpf
    have hpf' : parse_frontmatter (render_issue i) = (render_fm_pairs i, []) := hpf
    have hmain := parse_issue_render_of_pf i [] htask hfile hpf'
    rw [hmain]
    rfl
  cases hb : i.body with
  | none =>
    have hre : render_issue i = join_nl (render_fm_lines i ++ [str "---"]) := by
      rw [render_issue_eq i, hb]
    exact hnobody hre
  | some b =>
    rw [hb] at hbody
    by_cases hbt : rust_trim b = []
    · have hre : render_issue i = join_nl (render_fm_lines i ++ [str "---"]) := by
        rw [render_issue_eq i, hb]
        exact if_neg (fun hn => hn hbt)
      rw [hnobody hre]
      simp [hbt]
    · have hre : render_issue i =
          join_nl ((render_fm_lines i ++ [str "---"] ++ [[]]) ++ [rust_trim b]) := by
        rw [render_issue_eq i, hb]
        exact if_pos hbt
      have hcleanB : ∀ l ∈ render_fm_lines i ++ [str "---"] ++ [[]],
          '\n' ∉ l ∧ strip_cr l = l := by
        intro l hl
        rcases List.mem_append.mp hl with hl' | hl'
        · rcases List.mem_append.mp hl' with hl'' | hl''
          · exact hclean l hl''
          · simp only [List.mem_singleton] at hl''
            subst hl''
            exact ⟨by decide, by decide⟩
        · simp only [List.mem_singleton] at hl'
          subst hl'
          exact ⟨by decide, by decide⟩
      have htb_cr : '\r' ∉ rust_trim b := fun hm => hbody (rust_trim_subset b '\r' hm)
      have htb_last : (rust_trim b).getLast? ≠ some '\n' := by
        intro hg
        have := rust_trim_getLast_not_ws b '\n' hg
        simp [rust_is_whitespace] at this
      have hjtb : join_nl (rust_lines (rust_trim b)) = rust_trim b :=
        join_rust_lines _ htb_cr hbt htb_last
      have h1 : rust_lines (render_issue i) = str "---" ::
          ((str "id: " ++ i.id) :: (str "title: " ++ i.title) ::
           (str "status: " ++ issue_status_as_str i.status) ::
           (str "priority: " ++ issue_priority_as_str i.priority) ::
           (str "task: " ++ i.task.getD (str "-")) ::
           (str "type: " ++ issue_type_as_str i.issue_type) ::
           (str "source: " ++ issue_source_as_str i.source) ::
           (str "created_at: " ++ i.created_at) ::
           (str "updated_at: " ++ i.updated_at) ::
           (str "file: " ++ i.file.getD (str "-")) :: str "---" ::
           [] :: rust_lines (rust_trim b)) := by
        rw [hre, join_nl_eq_foldr, rust_lines_join_prefix _ _ hcleanB]
        simp only [render_fm_lines, List.cons_append, List.nil_append]
      have hpf := parse_frontmatter_eq _ _ _ h1 (by decide)
      rw [parse_fm_render i ([] :: rust_lines (rust_trim b))
        hid.1 htit.1 hca.1 hua.1 htv.1 hfv.1] at hpf
      have hrl_ne : rust_lines (rust_trim b) ≠ [] :=
        fun hn => hbt (rust_lines_nil_iff _ hn)
      have hpf' : parse_frontmatter (render_issue i) =
          (render_fm_pairs i, '\n' :: rust_trim b) := by
        rw [hpf]
        show (render_fm_pairs i, join_nl ([] :: rust_lines (rust_trim b))) =
          (render_fm_pairs i, '\n' :: rust_trim b)
        rw [join_nl_cons _ _ hrl_ne, hjtb]
        rfl
      have hmain := parse_issue_render_of_pf i ('\n' :: rust_trim b) htask hfile hpf'
      have htrim_nl : rust_trim ('\n' :: rust_trim b) = rust_trim b := by
        rw [rust_trim_ws_cons '\n' _ (by decide), rust_trim_idem]
      rw [hmain]
      simp [htrim_nl, hbt]

/-- An issue whose `task` field is `Some("-")`: `render_issue` prints `-`,
the marker it also uses for an unset task, so the round trip loses the
field. -/
def dash_issue : Issue :=
  ⟨str "i-1", str "t", .opened, .p1, some (str "-"), .bug, .manual,
   str "c", str "u", none, none⟩

/-- C4 counterexample: the round trip does NOT hold for every `Issue`
value. For `dash_issue`, whose `task` is `Some("-")`, parsing the rendered
text succeeds but returns `task = None`, so the original `task` is not
reproduced. -/
theorem render_parse_dash_counterexample :
    dash_issue.task = some (str "-") ∧
    parse_issue (render_issue dash_issue) = .ok { dash_issue with task := none } ∧
    { dash_issue with task := none } ≠ dash_issue := by
  refine ⟨rfl, rfl, fun hc => ?_⟩
  exact Option.noConfusion (congrArg Issue.task hc)

/-- A concrete well-formed issue exercising the round trip, with a
multi-line body. -/
def rt_issue : Issue :=
  ⟨str "i-2", str "hello: world", .resolved, .p3, some (str "tsk"), .perf, .review,
   str "2024", str "2025", some (str "src/a.rs"),
   some (str "line one\n\n## Resolution\nfixed")⟩

/-- Witness for `render_parse_roundtrip` at `rt_issue`. -/
theorem render_parse_roundtrip_witness :
    issue_wf rt_issue ∧
    parse_issue (render_issue rt_issue) =
      .ok { rt_issue with
            body := rt_issue.body.bind
              (fun b => if rust_trim b = [] then none else some (rust_trim b)) } := by
  have hwf : issue_wf rt_issue :=
    ⟨⟨by decide, by decide⟩, ⟨by decide, by decide⟩, ⟨by decide, by decide⟩,
     ⟨by decide, by decide⟩, ⟨by decide, by decide, by decide, by decide⟩,
     ⟨by decide, by decide, by decide, by decide⟩,
     (show '\r' ∉ str "line one\n\n## Resolution\nfixed" by decide)⟩
  exact ⟨hwf, render_parse_roundtrip rt_issue hwf⟩
